import Mathlib

/-!
Verification development for the klas-pdf-processor repository.

The definitions below are a shallow embedding of the Python source:
  * `src/src/processors/chapter_detector.py`  (hierarchy detection)
  * `src/src/classifiers/scan_detector.py`    (scanned-document detection)
  * `src/src/classifiers/document_classifier.py`
  * `src/src/analyzers/content_analyzer.py`
  * `src/src/extractors/pdf_extractor.py`     (`extract_toc_pages`)
  * `src/main.py` (`detect_exercise`, `map_box_type`, `split_pdf_into_chunks`)
  * `src/parser.py` (`_create_block_metadata`)

Machine integers are modelled as `Int`/`Nat` (Python ints are unbounded),
Python floats used for the confidence scores and averages are modelled as
`ℚ` (all values involved are small decimal constants, where rational and
IEEE-754 comparisons agree), strings as Lean `String` (ASCII case folding;
all keywords involved are ASCII).  External I/O (PyMuPDF page access, file
writing) is out of the embedding: functions receive the extracted data as
arguments, exactly in the shape the Python code reads it.
-/

/-! ## Python string primitives -/

/-- Python whitespace class used by `str.split()` / `str.strip()`
(ASCII part: space, tab, newline, carriage return, vertical tab, form feed). -/
def pyIsSpace (c : Char) : Bool :=
  c = ' ' || c = '\t' || c = '\n' || c = '\r' || c = '\x0b' || c = '\x0c'

/-- `str.strip()` on a character list. -/
def listStrip (l : List Char) : List Char :=
  ((l.dropWhile pyIsSpace).reverse.dropWhile pyIsSpace).reverse

/-- Python `str.strip()`. -/
def pyStrip (s : String) : String :=
  ⟨listStrip s.data⟩

/-- `str.lstrip()` length difference helper: number of leading whitespace chars. -/
def leadingWsCount (l : List Char) : Nat :=
  (l.takeWhile pyIsSpace).length

/-- One step of splitting on whitespace runs, consumed right to left. -/
def splitWsFold (c : Char) (acc : List (List Char)) : List (List Char) :=
  if pyIsSpace c then
    match acc with
    | [] :: _ => acc
    | _ => [] :: acc
  else
    match acc with
    | g :: gs => (c :: g) :: gs
    | [] => [[c]]

/-- Python `str.split()` (split on whitespace runs, dropping empty fields),
on a character list. -/
def listSplitWs (l : List Char) : List (List Char) :=
  (l.foldr splitWsFold []).filter (fun g => !g.isEmpty)

/-- Python `' '.join(s.split())`: collapse whitespace runs to single spaces. -/
def collapseWs (s : String) : String :=
  String.intercalate " " ((listSplitWs s.data).map (⟨·⟩))

/-- Python `str.lower()` (ASCII case folding). -/
def pyLower (s : String) : String :=
  ⟨s.data.map Char.toLower⟩

/-- Python `pat in hay` (substring containment), on lists. -/
def listContainsSub (hay pat : List Char) : Bool :=
  match hay with
  | [] => pat.isEmpty
  | _ :: tl => pat.isPrefixOf hay || listContainsSub tl pat

/-- Python `pat in hay` (substring containment). -/
def containsSub (hay pat : String) : Bool :=
  listContainsSub hay.data pat.data

/-- Python `any(word in hay for word in kws)`. -/
def containsAnyKw (kws : List String) (hay : String) : Bool :=
  kws.any (fun kw => containsSub hay kw)

/-! ## Title cleaning (`ChapterDetector._clean_title`) -/

/-- Case-insensitive keyword removal at the start of a character list
(the regex alternation `(?:chapter|unit|section|part|module)` under
`re.IGNORECASE`; the lowercase keyword is matched against the folded input). -/
def ciDropKw : List Char → List Char → Option (List Char)
  | [], l => some l
  | _ :: _, [] => none
  | p :: ps, c :: cs => if c.toLower = p then ciDropKw ps cs else none

/-- The tail `\s+\d+\s*:?\s*` of the leading-label regex in `_clean_title`. -/
def matchLabelTail (l : List Char) : Option (List Char) :=
  if (l.takeWhile pyIsSpace).length = 0 then none
  else
    let l1 := l.dropWhile pyIsSpace
    if (l1.takeWhile Char.isDigit).length = 0 then none
    else
      let l2 := (l1.dropWhile Char.isDigit).dropWhile pyIsSpace
      let l3 := match l2 with
        | ':' :: r => r
        | _ => l2
      some (l3.dropWhile pyIsSpace)

/-- `re.sub(r'^(?:chapter|unit|section|part|module)\s+\d+\s*:?\s*', '', title,
flags=re.IGNORECASE)`: remove a leading chapter/unit/... label, if present. -/
def stripLeadingLabel (l : List Char) : List Char :=
  let kws := ["chapter", "unit", "section", "part", "module"]
  match kws.firstM (fun kw => (ciDropKw kw.data l).bind matchLabelTail) with
  | some rest => rest
  | none => l

/-- Python `title[:97] + "..."` when `len(title) > 100`. -/
def truncateTitle (l : List Char) : List Char :=
  if l.length > 100 then l.take 97 ++ ['.', '.', '.'] else l

/-- `ChapterDetector._clean_title`: collapse whitespace, strip a leading
`chapter/unit/section/part/module <n> [:]` label (case-insensitively),
truncate to 100 characters, strip surrounding whitespace.  (The
`encode/decode('utf-8', errors='ignore')` round trip is the identity on the
valid unicode strings Lean `String` carries.) -/
def cleanTitle (s : String) : String :=
  pyStrip ⟨truncateTitle (stripLeadingLabel (collapseWs s).data)⟩

/-! ## Structural units ("boxes") and the hierarchy detector
(`ChapterDetector` in `src/src/processors/chapter_detector.py`) -/

/-- One entry of the PDF's embedded outline, as PyMuPDF's `get_toc` returns
it: `[level, title, page]`.  Levels reported by PyMuPDF are ≥ 1. -/
structure TocEntry where
  level : Nat
  title : String
  page : Int
  deriving Repr, DecidableEq

/-- A structural unit as built by `ChapterDetector` (`box` dict in the
source).  `endPage` starts as a placeholder (`None` in Python) and is
assigned by the end-page fill pass. -/
structure TocBox where
  boxId : String
  title : String
  level : Nat
  parentId : Option String
  startPage : Int
  endPage : Int
  deriving Repr, DecidableEq

/-- The level-indexed parent stack update shared by
`detect_from_builtin_toc` and `detect_from_toc_text`:
pop while the stack is longer than `level`, read the parent from the top
(`None` when only the root sentinel is left), extend with `None` up to
index `level`, and store the new box id at slot `level`. -/
def stackStep (stack : List (Option String)) (level : Nat) (boxId : String) :
    Option String × List (Option String) :=
  let s1 := stack.take level
  let parent := if s1.length > 1 then s1.getLastD none else none
  let s2 := if s1.length ≤ level then s1 ++ List.replicate (level + 1 - s1.length) none else s1
  (parent, s2.set level (some boxId))

/-- The `for item in toc_data` loop of `detect_from_builtin_toc`: skip
out-of-range pages and empty cleaned titles, otherwise create `box_{n+1}`
(`count` is `len(boxes)`, the number of boxes accepted so far) with the
parent taken from the stack, and continue with the updated stack. -/
def buildTocGo (total : Int) (count : Nat) (stack : List (Option String)) :
    List TocEntry → List TocBox
  | [] => []
  | e :: rest =>
    if e.page > total ∨ e.page < 1 then buildTocGo total count stack rest
    else
      let ct := cleanTitle e.title
      if ct = "" then buildTocGo total count stack rest
      else
        let bid := "box_" ++ toString (count + 1)
        let (par, stk) := stackStep stack e.level bid
        { boxId := bid, title := ct, level := e.level, parentId := par,
          startPage := e.page, endPage := 0 } ::
          buildTocGo total (count + 1) stk rest

/-- End-page assignment for one box given the boxes after it: the first
later box whose level is ≤ this box's level contributes `start_page - 1`;
otherwise `total_pages` is used. -/
def endFor (total : Int) (b : TocBox) (later : List TocBox) : Int :=
  match later.find? (fun b2 => b2.level ≤ b.level) with
  | some b2 => b2.startPage - 1
  | none => total

/-- The `# Fill end pages` pass: assign each box its end page by the
forward scan over the boxes after it. -/
def fillEnds (total : Int) : List TocBox → List TocBox
  | [] => []
  | b :: rest => { b with endPage := endFor total b rest } :: fillEnds total rest

/-- `ChapterDetector.detect_from_builtin_toc`. -/
def detectFromBuiltinToc (toc : Option (List TocEntry)) (total : Int) :
    Option (List TocBox) :=
  match toc with
  | none => none
  | some items =>
    if items.length = 0 then none
    else
      let filled := fillEnds total (buildTocGo total 0 [none] items)
      if 2 ≤ filled.length then some filled else none

/-! ## TOC-text parsing (`ChapterDetector.detect_from_toc_text`) -/

/-- Count of `'.'` characters in a numbering group (`number.count('.')`). -/
def countDots (l : List Char) : Nat :=
  (l.filter (fun c => c = '.')).length

/-- `^(\d+)\.` — leading digit run followed by a dot; group is the digits. -/
def matchNum1 (l : List Char) : Option (List Char) :=
  let d := l.takeWhile Char.isDigit
  if d.length = 0 then none
  else
    match l.drop d.length with
    | '.' :: _ => some d
    | _ => none

/-- `^(\d+\.\d+)` — digits, dot, digits; group spans all three. -/
def matchNum2 (l : List Char) : Option (List Char) :=
  let d1 := l.takeWhile Char.isDigit
  if d1.length = 0 then none
  else
    match l.drop d1.length with
    | '.' :: rest =>
      let d2 := rest.takeWhile Char.isDigit
      if d2.length = 0 then none else some (d1 ++ '.' :: d2)
    | _ => none

/-- `^(\d+\.\d+\.\d+)`. -/
def matchNum3 (l : List Char) : Option (List Char) :=
  let d1 := l.takeWhile Char.isDigit
  if d1.length = 0 then none
  else
    match l.drop d1.length with
    | '.' :: rest =>
      let d2 := rest.takeWhile Char.isDigit
      if d2.length = 0 then none
      else
        match rest.drop d2.length with
        | '.' :: rest2 =>
          let d3 := rest2.takeWhile Char.isDigit
          if d3.length = 0 then none else some (d1 ++ '.' :: d2 ++ '.' :: d3)
        | _ => none
    | _ => none

/-- `^([A-Z])\.` — single capital letter followed by a dot. -/
def matchNum4 (l : List Char) : Option (List Char) :=
  match l with
  | c :: '.' :: _ => if 'A' ≤ c ∧ c ≤ 'Z' then some [c] else none
  | _ => none

/-- `^([ivxlcdm]+)\.` — lowercase roman-numeral letters followed by a dot. -/
def matchNum5 (l : List Char) : Option (List Char) :=
  let isRoman : Char → Bool := fun c =>
    c = 'i' || c = 'v' || c = 'x' || c = 'l' || c = 'c' || c = 'd' || c = 'm'
  let r := l.takeWhile isRoman
  if r.length = 0 then none
  else
    match l.drop r.length with
    | '.' :: _ => some r
    | _ => none

/-- `ChapterDetector._get_level_from_numbering`: try the numbering patterns
in order on the stripped title; the level is the group's dot count plus
one (so it is always 1: the first pattern already matches any
`<digits>.`-prefixed title, making the dotted patterns unreachable). -/
def levelFromNumbering (title : String) : Nat × Option String :=
  let l := (pyStrip title).data
  match matchNum1 l with
  | some g => (countDots g + 1, some ⟨g⟩)
  | none =>
    match matchNum2 l with
    | some g => (countDots g + 1, some ⟨g⟩)
    | none =>
      match matchNum3 l with
      | some g => (countDots g + 1, some ⟨g⟩)
      | none =>
        match matchNum4 l with
        | some g => (countDots g + 1, some ⟨g⟩)
        | none =>
          match matchNum5 l with
          | some g => (countDots g + 1, some ⟨g⟩)
          | none => (1, none)

/-- `re.search(r'\.{2,}\s*(\d+)\s*$', line)`: a dot-leader page number.
The `$`-anchored pattern matches exactly when the line ends with two or
more dots, optional whitespace, a digit run, and optional whitespace;
the group is that final digit run.  Returns the digit run. -/
def pageSuffixDots (l : List Char) : Option (List Char) :=
  let r := l.reverse
  let r1 := r.dropWhile pyIsSpace
  let d := r1.takeWhile Char.isDigit
  if d.length = 0 then none
  else
    let r2 := (r1.drop d.length).dropWhile pyIsSpace
    if 2 ≤ (r2.takeWhile (fun c => c = '.')).length then some d.reverse else none

/-- `re.search(r'\s+(\d+)\s*$', line)`: a whitespace-separated trailing
page number. -/
def pageSuffixWs (l : List Char) : Option (List Char) :=
  let r := l.reverse
  let r1 := r.dropWhile pyIsSpace
  let d := r1.takeWhile Char.isDigit
  if d.length = 0 then none
  else
    match r1.drop d.length with
    | c :: _ => if pyIsSpace c then some d.reverse else none
    | [] => none

/-- Numeric value of a digit run (Python `int(...)`). -/
def digitsToNat (l : List Char) : Nat :=
  l.foldl (fun acc c => acc * 10 + (c.toNat - '0'.toNat)) 0

/-- `re.sub(r'\.{2,}\s*\d+\s*$', '', line)`: strip a dot-leader page
number suffix (the whole maximal dot run, by leftmost matching). -/
def subDotsPage (l : List Char) : List Char :=
  let r := l.reverse
  let r1 := r.dropWhile pyIsSpace
  let d := r1.takeWhile Char.isDigit
  if d.length = 0 then l
  else
    let r2 := (r1.drop d.length).dropWhile pyIsSpace
    let dots := r2.takeWhile (fun c => c = '.')
    if 2 ≤ dots.length then (r2.drop dots.length).reverse else l

/-- `re.sub(r'\s+\d+\s*$', '', title)`: strip a whitespace-separated
trailing page number (with the whole maximal whitespace run). -/
def subWsPage (l : List Char) : List Char :=
  let r := l.reverse
  let r1 := r.dropWhile pyIsSpace
  let d := r1.takeWhile Char.isDigit
  if d.length = 0 then l
  else
    let r2 := r1.drop d.length
    if (r2.takeWhile pyIsSpace).length = 0 then l
    else (r2.dropWhile pyIsSpace).reverse

/-- One line of `detect_from_toc_text`'s loop: strip, length-gate, locate
the trailing page number (dot-leader pattern first), range-check it,
derive the title by the two suffix substitutions, derive the level as
`max(indent // 4 + 1, numbering level)`, clean the title.  Returns
`(cleaned title, level, page)`; lines failing any step yield `none`.
(The auxiliary `number` group stored in the box dict is unused downstream
and not carried.) -/
def parseTocLine (total : Int) (original : String) : Option (String × Nat × Int) :=
  let line := pyStrip original
  if line.data.length < 5 then none
  else
    match pageSuffixDots line.data |>.orElse (fun _ => pageSuffixWs line.data) with
    | none => none
    | some dgs =>
      let page : Int := (digitsToNat dgs : Int)
      if page > total ∨ page < 1 then none
      else
        let title : List Char := subWsPage (subDotsPage line.data)
        let indent := leadingWsCount original.data
        let levelIndent := indent / 4 + 1
        let levelNum := (levelFromNumbering ⟨title⟩).1
        let level := max levelIndent levelNum
        let cleaned := cleanTitle ⟨title⟩
        if cleaned = "" then none else some (cleaned, level, page)

/-- The line loop of `detect_from_toc_text`: parse each line, skipping
rejected ones; an accepted line becomes `box_{count+1}` where `count` is
`len(boxes)`, the number of boxes built so far (parents are assigned in a
second pass). -/
def tocLinesGo (total : Int) (count : Nat) : List String → List TocBox
  | [] => []
  | line :: rest =>
    match parseTocLine total line with
    | none => tocLinesGo total count rest
    | some (t, lv, pg) =>
      { boxId := "box_" ++ toString (count + 1), title := t, level := lv,
        parentId := none, startPage := pg, endPage := 0 } ::
        tocLinesGo total (count + 1) rest

/-- The second pass of `detect_from_toc_text`: assign parents with the
same level-indexed stack walk as the built-in-outline strategy. -/
def assignParentsGo (stack : List (Option String)) : List TocBox → List TocBox
  | [] => []
  | b :: rest =>
    let (par, stk) := stackStep stack b.level b.boxId
    { b with parentId := par } :: assignParentsGo stk rest

/-- `detect_from_toc_text`'s parent pass, started on the `[None]` stack. -/
def assignParents (l : List TocBox) : List TocBox :=
  assignParentsGo [none] l

/-- Python `str.split('\n')` on a character list (keeps empty fields). -/
def splitOnNl : List Char → List (List Char)
  | [] => [[]]
  | c :: cs =>
    if c = '\n' then [] :: splitOnNl cs
    else
      match splitOnNl cs with
      | g :: gs => (c :: g) :: gs
      | [] => [[c]]

/-- `ChapterDetector.detect_from_toc_text`. -/
def detectFromTocText (tocText : String) (total : Int) : Option (List TocBox) :=
  if tocText = "" then none
  else
    let lines := (splitOnNl tocText.data).map (fun l => (⟨l⟩ : String))
    let filled := fillEnds total (assignParents (tocLinesGo total 0 lines))
    if 2 ≤ filled.length then some filled else none

/-! ## Fallback partition (`ChapterDetector.create_fallback_boxes`) -/

/-- `ChapterDetector.create_fallback_boxes`: partition `[1, num_pages]`
into consecutive chunks of `pages_per_box` pages (the Python `range(0,
num_pages, pages_per_box)` loop; `pages_per_box ≥ 1`, default 15). -/
def createFallbackBoxes (numPages : Nat) (pagesPerBox : Nat) : List TocBox :=
  (List.range ((numPages + pagesPerBox - 1) / pagesPerBox)).map (fun k =>
    let i := k * pagesPerBox
    let start := i + 1
    let e := min (i + pagesPerBox) numPages
    { boxId := "box_" ++ toString (k + 1),
      title := "Section " ++ toString (k + 1) ++ " (Pages " ++ toString start ++
        "-" ++ toString e ++ ")",
      level := 1, parentId := none,
      startPage := (start : Int), endPage := (e : Int) })

/-! ## Extracted pages and the detection driver -/

/-- One extracted page (`PDFExtractor.extract`): the cleaned text and its
physical 1-based position.  The raw layout blocks are external PyMuPDF
data and are not modelled. -/
structure Page where
  pageNum : Nat
  text : String
  deriving Repr, DecidableEq

/-- The dictionary `PDFExtractor.extract` returns (page labels omitted:
they are an identity mapping used only for display). -/
structure Extracted where
  numPages : Nat
  pages : List Page
  filename : String
  builtinToc : Option (List TocEntry)
  deriving Repr

/-- `PDFExtractor.extract_toc_pages`: texts of the first 5 pages whose
lowercased content holds a table-of-contents marker, then of the last 3
pages (English markers only); `None` when no candidate is found. -/
def extractTocPages (pages : List Page) : Option (List String) :=
  let kwsFirst := ["table of contents", "contents", "index",
                   "table des matières", "índice", "содержание"]
  let kwsLast := ["table of contents", "contents", "index"]
  let first := (pages.take 5).filter (fun p => containsAnyKw kwsFirst (pyLower p.text))
  let last := (pages.drop (pages.length - 3)).filter
    (fun p => containsAnyKw kwsLast (pyLower p.text))
  let cands := first.map (fun p => p.text) ++ last.map (fun p => p.text)
  if cands.isEmpty then none else some cands

/-- The `for toc_text in toc_pages` loop of `ChapterDetector.detect`:
return the first candidate block that parses to a hierarchy. -/
def firstTocTextHit (total : Int) : List String → Option (List TocBox)
  | [] => none
  | t :: ts =>
    match detectFromTocText t total with
    | some bs => some bs
    | none => firstTocTextHit total ts

/-- `ChapterDetector.detect`: built-in outline, then TOC-text candidates,
then the fixed fallback partition (15 pages per box). -/
def chapterDetect (e : Extracted) : List TocBox :=
  match detectFromBuiltinToc e.builtinToc (e.numPages : Int) with
  | some bs => bs
  | none =>
    match extractTocPages e.pages with
    | some cands =>
      match firstTocTextHit (e.numPages : Int) cands with
      | some bs => bs
      | none => createFallbackBoxes e.numPages 15
    | none => createFallbackBoxes e.numPages 15

/-! ## Scan detection (`ScanDetector.detect` in
`src/src/classifiers/scan_detector.py`)

`ScanDetector` reads pages straight from the PDF; the embedding receives,
for each page, the raw page text and the number of images PyMuPDF
reports.  Python's float arithmetic on these small decimal constants is
modelled exactly by `ℚ`. -/

/-- A page as `ScanDetector.detect` sees it. -/
structure FitzPage where
  text : String
  imageCount : Nat
  deriving Repr, DecidableEq

/-- `len(page.get_text("text").strip())`. -/
def fitzCharCount (p : FitzPage) : Nat :=
  (pyStrip p.text).data.length

/-- The `(is_scanned, confidence, details)` triple of `ScanDetector.detect`. -/
structure ScanResult where
  isScanned : Bool
  confidence : ℚ
  samplePages : Nat
  textPages : Nat
  imagePages : Nat
  avgCharsPerPage : Int
  totalImages : Nat
  needsOcr : Bool
  deriving Repr, DecidableEq

/-- `sample_size = min(10, total_pages)` in `ScanDetector.detect`. -/
def scanSampleSize (pages : List FitzPage) : Nat :=
  min 10 pages.length

/-- `text_chars` in `ScanDetector.detect`: a sampled page's characters are
added only when its count exceeds 100 (the `if char_count > 100` branch). -/
def scanTextChars (pages : List FitzPage) : Nat :=
  ((pages.take (scanSampleSize pages)).map
    (fun p => if 100 < fitzCharCount p then fitzCharCount p else 0)).sum

/-- `avg_chars_per_page = text_chars / sample_size if sample_size > 0 else 0`
in `ScanDetector.detect`. -/
def scanTextAvg (pages : List FitzPage) : ℚ :=
  if 0 < scanSampleSize pages then
    (scanTextChars pages : ℚ) / (scanSampleSize pages : ℚ)
  else 0

/-- `ScanDetector.detect`: sample the first `min(10, total_pages)` pages;
decide scanned/text by the three ordered rules. -/
def scanDetect (pages : List FitzPage) : ScanResult :=
  let sampleSize := scanSampleSize pages
  let sampled := pages.take sampleSize
  let textPages := (sampled.filter (fun p => 100 < fitzCharCount p)).length
  let imagePages := (sampled.filter (fun p => 0 < p.imageCount)).length
  let totalImages := (sampled.map (fun p => p.imageCount)).sum
  let (isScanned, confidence) : Bool × ℚ :=
    if scanTextAvg pages < 50 then (true, 9/10)
    else if (sampleSize : ℚ) * (8/10) < (imagePages : ℚ) ∧ scanTextAvg pages < 200 then
      (true, 7/10)
    else (false, 8/10)
  { isScanned := isScanned, confidence := confidence,
    samplePages := sampleSize, textPages := textPages, imagePages := imagePages,
    avgCharsPerPage := ⌊scanTextAvg pages⌋, totalImages := totalImages,
    needsOcr := isScanned }

/-- Modelled from the spec (claim C4's wording): `avg_chars_per_page` as
the arithmetic mean of the character counts of **all** sampled pages. -/
def specScanArithMean (pages : List FitzPage) : ℚ :=
  let sampleSize := min 10 pages.length
  let sampled := pages.take sampleSize
  if 0 < sampleSize then ((sampled.map fitzCharCount).sum : ℚ) / (sampleSize : ℚ) else 0

/-- Modelled from the spec (claim C4's wording): the scan decision rules
applied to the arithmetic mean of all sampled pages' character counts. -/
def specScanDecision (pages : List FitzPage) : Bool × ℚ :=
  let sampleSize := min 10 pages.length
  let sampled := pages.take sampleSize
  let imagePages := (sampled.filter (fun p => 0 < p.imageCount)).length
  let avg := specScanArithMean pages
  if avg < 50 then (true, 9/10)
  else if (sampleSize : ℚ) * (8/10) < (imagePages : ℚ) ∧ avg < 200 then (true, 7/10)
  else (false, 8/10)

/-! ## Document-type classification (`DocumentClassifier` in
`src/src/classifiers/document_classifier.py`)

The `re.findall` pattern counters are embedded as direct scanners: a scan
walks the text left to right, counting non-overlapping matches, with one
character of left context for `\b` word boundaries. -/

/-- Python regex `\w` (ASCII part). -/
def isWordChar (c : Char) : Bool :=
  c.isAlphanum || c = '_'

/-- A `\b` word boundary holds before a word character iff the previous
character (none at string start) is not a word character. -/
def boundaryBefore (prev : Option Char) : Bool :=
  match prev with
  | none => true
  | some c => !isWordChar c

/-- Non-overlapping match counting: walk the text; on a match of `k`
characters, count it and resume after it, else advance one character.
The matcher receives the previous character (for `\b`) and the remaining
text, and returns the match length.  Fuel is the text length. -/
def scanCountAux (m : Option Char → List Char → Option Nat) :
    Nat → Option Char → List Char → Nat
  | 0, _, _ => 0
  | _ + 1, _, [] => 0
  | fuel + 1, prev, c :: cs =>
    match m prev (c :: cs) with
    | some (k + 1) => 1 + scanCountAux m fuel ((c :: cs)[k]?) ((c :: cs).drop (k + 1))
    | _ => scanCountAux m fuel (some c) cs

/-- `len(re.findall(pattern, text))` for one pattern/matcher. -/
def countPat (m : Option Char → List Char → Option Nat) (s : String) : Nat :=
  scanCountAux m s.data.length none s.data

/-- Case-insensitive literal keyword at the head of the text; returns the
remaining text (the keyword is given lowercase). -/
def ciDropKwIsSome (kw : String) (l : List Char) : Bool :=
  (ciDropKw kw.data l).isSome

/-- `\b\d+\.\s+[A-Z]` under `re.IGNORECASE` (so the letter class is
case-insensitive): numbered item followed by a capitalised word. -/
def mNumberedItem (prev : Option Char) (l : List Char) : Option Nat :=
  if !boundaryBefore prev then none
  else
    let d := l.takeWhile Char.isDigit
    if d.length = 0 then none
    else
      match l.drop d.length with
      | '.' :: rest =>
        let w := rest.takeWhile pyIsSpace
        if w.length = 0 then none
        else
          match rest.drop w.length with
          | c :: _ => if c.isAlpha then some (d.length + 1 + w.length + 1) else none
          | [] => none
      | _ => none

/-- `\bQuestion\s+\d+` (case-insensitive); also used (without the
boundary) for the exercise/chapter indicator patterns. -/
def mKwNum (needBoundary : Bool) (kw : String) (prev : Option Char) (l : List Char) :
    Option Nat :=
  if needBoundary ∧ !boundaryBefore prev then none
  else
    match ciDropKw kw.data l with
    | none => none
    | some rest =>
      let w := rest.takeWhile pyIsSpace
      if w.length = 0 then none
      else
        let d := (rest.drop w.length).takeWhile Char.isDigit
        if d.length = 0 then none
        else some (kw.data.length + w.length + d.length)

/-- `\b[A-D]\)\s` (case-insensitive): a lettered choice marker. -/
def mChoiceMarker (prev : Option Char) (l : List Char) : Option Nat :=
  if !boundaryBefore prev then none
  else
    match l with
    | c :: ')' :: s :: _ =>
      if (('A' ≤ c ∧ c ≤ 'D') ∨ ('a' ≤ c ∧ c ≤ 'd')) ∧ pyIsSpace s then some 3 else none
    | _ => none

/-- `\bkw\b` (case-insensitive) for a purely alphabetic keyword. -/
def mWholeWord (kw : String) (prev : Option Char) (l : List Char) : Option Nat :=
  if !boundaryBefore prev then none
  else
    match ciDropKw kw.data l with
    | none => none
    | some rest =>
      match rest with
      | [] => some kw.data.length
      | c :: _ => if isWordChar c then none else some kw.data.length

/-- Furthest position (greedy `.*`) at which `kw` matches
case-insensitively, scanning only up to the first newline. -/
def lastCiMatchPos (kw : String) : List Char → Nat → Option Nat → Option Nat
  | [], _, best => best
  | c :: cs, i, best =>
    if c = '\n' then best
    else lastCiMatchPos kw cs (i + 1)
      (if ciDropKwIsSome kw (c :: cs) then some i else best)

/-- `\banswer\b.*question` (case-insensitive, `.` not matching newline):
"answer" as a whole word, then a greedy gap, then "question". -/
def mAnswerQuestion (prev : Option Char) (l : List Char) : Option Nat :=
  if !boundaryBefore prev then none
  else
    match ciDropKw "answer".data l with
    | none => none
    | some rest =>
      let wordOk := match rest with
        | [] => true
        | c :: _ => !isWordChar c
      if !wordOk then none
      else
        match lastCiMatchPos "question" rest 0 none with
        | some i => some (6 + i + 8)
        | none => none

/-- `DocumentClassifier._count_questions`. -/
def countQuestions (text : String) : Nat :=
  countPat mNumberedItem text +
  countPat (mKwNum true "question") text +
  countPat mChoiceMarker text +
  countPat (mWholeWord "choose") text +
  countPat (mWholeWord "select") text +
  countPat mAnswerQuestion text

/-- `DocumentClassifier._count_exercises`. -/
def countExercises (text : String) : Nat :=
  countPat (mKwNum false "exercise") text +
  countPat (mKwNum false "practice") text +
  countPat (mKwNum false "drill") text +
  countPat (mKwNum false "activity") text

/-- `DocumentClassifier._count_chapters`. -/
def countChapters (text : String) : Nat :=
  countPat (mKwNum false "chapter") text +
  countPat (mKwNum false "unit") text +
  countPat (mKwNum false "section") text

/-- `DocumentClassifier._get_sample_text`: text of the first ten pages,
space-joined, lowercased. -/
def getSampleText (pages : List Page) : String :=
  pyLower (String.intercalate " " ((pages.take 10).map (fun p => p.text)))

/-- `DocumentClassifier.classify`. -/
def classifyDocument (e : Extracted) : String × ℚ :=
  let filename := pyLower e.filename
  if containsAnyKw ["past", "exam", "waec", "neco", "utme", "jamb"] filename then
    ("past_questions", 9/10)
  else if containsAnyKw ["exercise", "practice", "drill", "worksheet"] filename then
    ("exercises", 9/10)
  else
    let sampleText := getSampleText e.pages
    let questionScore := countQuestions sampleText
    let exerciseScore := countExercises sampleText
    let chapterScore := countChapters sampleText
    if 20 < questionScore then
      if containsSub (pyLower sampleText) "past" || containsSub (pyLower sampleText) "exam" then
        ("past_questions", 85/100)
      else
        ("exercises", 8/10)
    else if 5 < exerciseScore then ("exercises", 75/100)
    else if 0 < chapterScore then ("textbook", 8/10)
    else ("textbook", 1/2)

/-! ## Exercise detection and box-type mapping
(`main.py` and `src/src/analyzers/content_analyzer.py`) -/

/-- `ExerciseMetadata` as `main.detect_exercise` builds it. -/
structure ExerciseMetadata where
  difficulty : String
  estimatedMinutes : Nat
  hasSolution : Bool
  exerciseNumber : Option String
  deriving Repr, DecidableEq

/-- `re.search(r'(\d+\.?\d*)', title)`: the first numeric token (digit
run, optionally a dot and further digits). -/
def firstNumericToken : List Char → Option String
  | [] => none
  | c :: cs =>
    if c.isDigit then
      let d1 := (c :: cs).takeWhile Char.isDigit
      match (c :: cs).drop d1.length with
      | '.' :: r2 => some ⟨d1 ++ '.' :: r2.takeWhile Char.isDigit⟩
      | _ => some ⟨d1⟩
    else firstNumericToken cs

/-- `main.detect_exercise`: keyword gate (note: no "activity"), then the
type chain in `main.py`'s order, then the first numeric token of the
(original-case) title as `exercise_number`. -/
def mainDetectExercise (title : String) : Bool × Option String × Option ExerciseMetadata :=
  let titleLower := pyLower title
  let isExercise := containsAnyKw ["exercise", "problem", "question", "quiz", "test", "practice"] titleLower
  if !isExercise then (false, none, none)
  else
    let exerciseType :=
      if containsSub titleLower "quiz" || containsSub titleLower "test" ||
         containsSub titleLower "multiple" then "multiple_choice"
      else if containsSub titleLower "code" || containsSub titleLower "program" then "coding"
      else if containsSub titleLower "short" || containsSub titleLower "brief" then "short_answer"
      else if containsSub titleLower "essay" || containsSub titleLower "discuss" then "essay"
      else if containsSub titleLower "true" || containsSub titleLower "false" then "true_false"
      else if containsSub titleLower "fill" || containsSub titleLower "blank" then "fill_blank"
      else "problem_solving"
    let exerciseNumber := firstNumericToken title.data
    (true, some exerciseType,
     some { difficulty := "medium", estimatedMinutes := 15, hasSolution := false,
            exerciseNumber := exerciseNumber })

/-- `ContentAnalyzer._detect_exercise`: keyword gate (with "activity"),
then the ordered type chain of `content_analyzer.py`. -/
def caDetectExercise (title : String) : Bool × Option String :=
  let titleLower := pyLower title
  let isExercise := containsAnyKw
    ["exercise", "problem", "question", "quiz", "test", "practice", "activity"] titleLower
  if !isExercise then (false, none)
  else if containsSub titleLower "multiple choice" || containsSub titleLower "mcq" then
    (true, some "multiple_choice")
  else if containsSub titleLower "true" || containsSub titleLower "false" then
    (true, some "true_false")
  else if containsSub titleLower "short answer" || containsSub titleLower "brief" then
    (true, some "short_answer")
  else if containsSub titleLower "essay" || containsSub titleLower "discuss" then
    (true, some "essay")
  else if containsSub titleLower "fill" || containsSub titleLower "blank" then
    (true, some "fill_blank")
  else if containsSub titleLower "code" || containsSub titleLower "program" then
    (true, some "coding")
  else (true, some "problem_solving")

/-- Modelled from the spec (§4.4 exercise sub-detection, claim C7's
wording): keyword set {exercise, problem, question, quiz, test, practice,
activity}; ordered type list multiple choice/mcq, true/false, short
answer/brief, essay/discuss, fill/blank, code/program, else
problem_solving. -/
def specDetectExercise (title : String) : Bool × Option String :=
  let titleLower := pyLower title
  let isExercise := containsAnyKw
    ["exercise", "problem", "question", "quiz", "test", "practice", "activity"] titleLower
  if !isExercise then (false, none)
  else if containsSub titleLower "multiple choice" || containsSub titleLower "mcq" then
    (true, some "multiple_choice")
  else if containsSub titleLower "true" || containsSub titleLower "false" then
    (true, some "true_false")
  else if containsSub titleLower "short answer" || containsSub titleLower "brief" then
    (true, some "short_answer")
  else if containsSub titleLower "essay" || containsSub titleLower "discuss" then
    (true, some "essay")
  else if containsSub titleLower "fill" || containsSub titleLower "blank" then
    (true, some "fill_blank")
  else if containsSub titleLower "code" || containsSub titleLower "program" then
    (true, some "coding")
  else (true, some "problem_solving")

/-- `ContentAnalyzer._classify_type`: ordered keyword categories with a
level-based default. -/
def caClassifyType (title : String) (level : Nat) : String :=
  let titleLower := pyLower title
  if containsAnyKw ["exercise", "problem", "practice"] titleLower then "exercise"
  else if containsAnyKw ["question", "quiz", "test", "assessment"] titleLower then "quiz"
  else if containsAnyKw ["summary", "conclusion", "recap", "review"] titleLower then "summary"
  else if containsAnyKw ["example", "case study", "illustration"] titleLower then "example"
  else if containsAnyKw ["definition", "glossary", "term", "concept"] titleLower then "definition"
  else if containsAnyKw ["note", "remark", "important", "remember"] titleLower then "note"
  else if level = 1 then "chapter"
  else if level = 2 then "section"
  else if level = 3 then "subsection"
  else "paragraph"

/-- `main.map_box_type`: the variant of the keyword mapping in `main.py`. -/
def mapBoxType (level : Nat) (title : String) : String :=
  let titleLower := pyLower title
  if containsAnyKw ["exercise", "problem", "question"] titleLower then "exercise"
  else if containsAnyKw ["quiz", "test", "assessment"] titleLower then "quiz"
  else if containsAnyKw ["summary", "conclusion", "recap"] titleLower then "summary"
  else if containsAnyKw ["example", "illustration"] titleLower then "example"
  else if containsAnyKw ["definition", "term"] titleLower then "definition"
  else if containsAnyKw ["note", "remark", "important"] titleLower then "note"
  else if level = 1 then "chapter"
  else if level = 2 then "section"
  else if level = 3 then "subsection"
  else "paragraph"

/-! ## Chunk splitting (`main.split_pdf_into_chunks`) and block metadata
(`parser.PDFParser._create_block_metadata`)

The PDF file operations (chunk writing, preview extraction, metadata
computation) are external I/O; the embedding keeps the page-range
validation and the kept/skipped bookkeeping, which is what claim C9 is
about.  `len(source_doc)` equals `total_pages` (both come from the same
file). -/

/-- A raw box as `main.create_boxes` hands it to `split_pdf_into_chunks`. -/
structure RawBox where
  boxId : String
  tempId : String
  parentTempId : Option String
  title : String
  boxType : String
  orderIndex : Nat
  pageStart : Int
  pageEnd : Int
  deriving Repr, DecidableEq

/-- The per-box loop of `split_pdf_into_chunks`: clamp `start` up to 1 and
`end` down to `total_pages`, skip on `start > end`, copy the pages of
`range(start-1, end)` that fall inside the source document, and skip when
nothing was copied; boxes that survive receive their chunk. -/
def splitChunksGo (totalPages : Int) : List RawBox → List RawBox
  | [] => []
  | b :: rest =>
    let start := if b.pageStart < 1 then 1 else b.pageStart
    let e := if b.pageEnd > totalPages then totalPages else b.pageEnd
    if start > e then splitChunksGo totalPages rest
    else
      let pagesCopied := (min e totalPages - max (start - 1) 0).toNat
      if pagesCopied = 0 then splitChunksGo totalPages rest
      else b :: splitChunksGo totalPages rest

/-- `main.split_pdf_into_chunks`: the surviving boxes (in order) and the
skipped count it reports (`len(boxes) - len(valid_boxes)`). -/
def splitPdfIntoChunks (boxes : List RawBox) (totalPages : Int) : List RawBox × Nat :=
  let valid := splitChunksGo totalPages boxes
  (valid, boxes.length - valid.length)

/-- A unit-range validity predicate, stated as the spec states it: the
range is valid when `page_start ≤ page_end` still holds after clamping to
`[1, total_pages]`. -/
def rangeValidAfterClamp (totalPages : Int) (pageStart pageEnd : Int) : Bool :=
  max 1 pageStart ≤ min totalPages pageEnd

/-- An analyzed box as `ContentAnalyzer.analyze_boxes` hands it to the
parser pipeline. -/
structure ABox where
  id : String
  parentId : Option String
  title : String
  blockType : String
  level : Nat
  orderIndex : Nat
  startPage : Int
  endPage : Int
  isExercise : Bool
  exerciseType : Option String
  deriving Repr, DecidableEq

/-- A block record of `PDFParser._create_block_metadata` (preview and
per-page metrics are external I/O and omitted). -/
structure BlockMeta where
  id : String
  parentId : Option String
  title : String
  blockType : String
  level : Nat
  orderIndex : Nat
  startPage : Int
  endPage : Int
  pageCount : Int
  isExercise : Bool
  exerciseType : Option String
  deriving Repr, DecidableEq

/-- The block built for one surviving box (with clamped pages). -/
def mkBlockMeta (totalPages : Int) (b : ABox) : BlockMeta :=
  let start := max 1 b.startPage
  let e := min totalPages b.endPage
  { id := b.id, parentId := b.parentId, title := b.title,
    blockType := b.blockType, level := b.level, orderIndex := b.orderIndex,
    startPage := start, endPage := e, pageCount := e - start + 1,
    isExercise := b.isExercise, exerciseType := b.exerciseType }

/-- `PDFParser._create_block_metadata`: clamp each box's range to the
document, drop it when `start > end`, keep going with the rest. -/
def createBlockMetadata (totalPages : Int) : List ABox → List BlockMeta
  | [] => []
  | b :: rest =>
    let start := max 1 b.startPage
    let e := min totalPages b.endPage
    if start > e then createBlockMetadata totalPages rest
    else mkBlockMeta totalPages b :: createBlockMetadata totalPages rest

/-! ## Spec-side decision functions used for refinement claims -/

/-- Modelled from the spec (claim C5's wording): the document-type
decision tree in the spec's stated priority order, over the same pattern
counters. -/
def specClassifyDocument (e : Extracted) : String × ℚ :=
  let filename := pyLower e.filename
  if containsAnyKw ["past", "exam", "waec", "neco", "utme", "jamb"] filename then
    ("past_questions", 9/10)
  else if containsAnyKw ["exercise", "practice", "drill", "worksheet"] filename then
    ("exercises", 9/10)
  else
    let sampleText := getSampleText e.pages
    if 20 < countQuestions sampleText then
      if containsSub (pyLower sampleText) "past" || containsSub (pyLower sampleText) "exam" then
        ("past_questions", 85/100)
      else ("exercises", 8/10)
    else if 5 < countExercises sampleText then ("exercises", 75/100)
    else if 0 < countChapters sampleText then ("textbook", 8/10)
    else ("textbook", 1/2)

/-! # Claim theorems -/

/-- C3 (counterexample): for the outline `[(1,"Intro",1), (2,"Basics",2),
(1,"Advanced",6)]` over a 10-page document, the code does **not** give
"Intro" the pages 1–1 the claim states: the forward scan looks for the
first later unit of level ≤ 1 and therefore gives "Intro" pages 1–5. -/
theorem c3_counterexample :
    ((detectFromBuiltinToc
        (some [⟨1, "Intro", 1⟩, ⟨2, "Basics", 2⟩, ⟨1, "Advanced", 6⟩]) 10).getD []).map
        (fun b => (b.title, b.startPage, b.endPage)) =
      [("Intro", 1, 5), ("Basics", 2, 5), ("Advanced", 6, 10)] ∧
    ((detectFromBuiltinToc
        (some [⟨1, "Intro", 1⟩, ⟨2, "Basics", 2⟩, ⟨1, "Advanced", 6⟩]) 10).getD []).map
        (fun b => (b.title, b.startPage, b.endPage)) ≠
      [("Intro", 1, 1), ("Basics", 2, 5), ("Advanced", 6, 10)] := by
  decide

/-- C3 (amended): outline `[(1,"Intro",1), (2,"Basics",2), (1,"Advanced",6)]`
over a 10-page document returns exactly three units: "Intro" with pages
1–5 (its end page comes from the first later unit of level ≤ 1, namely
"Advanced"), "Basics" with pages 2–5 and parent "Intro", and "Advanced"
with pages 6–10 and no parent. -/
theorem c3_outline_scenario :
    detectFromBuiltinToc
        (some [⟨1, "Intro", 1⟩, ⟨2, "Basics", 2⟩, ⟨1, "Advanced", 6⟩]) 10 =
      some [⟨"box_1", "Intro", 1, none, 1, 5⟩,
            ⟨"box_2", "Basics", 2, some "box_1", 2, 5⟩,
            ⟨"box_3", "Advanced", 1, none, 6, 10⟩] := by
  decide

/-- C5: document-type classification follows exactly the claimed priority:
past-exam filename keyword, else exercise filename keyword, else the
question/exercise/chapter counters over the lowercased first-10-page
sample, with the claimed thresholds, outcomes and confidences. -/
theorem c5_classifier_priority :
    ∀ e : Extracted, classifyDocument e = specClassifyDocument e :=
  fun _ => rfl

/-- C7 (counterexample): the claim fails on `main.detect_exercise`: the
title "Activity 1" contains the claimed keyword "activity" but is not
flagged as an exercise, and "Test: mark true or false" resolves to
`multiple_choice`, not the `true_false` the claimed ordered list
produces. -/
theorem c7_counterexample :
    (mainDetectExercise "Activity 1").1 = false ∧
    containsSub (pyLower "Activity 1") "activity" = true ∧
    (mainDetectExercise "Test: mark true or false").2.1 = some "multiple_choice" ∧
    (specDetectExercise "Test: mark true or false").2 = some "true_false" := by
  decide

/-- C7 (amended): `ContentAnalyzer._detect_exercise` implements exactly
the claimed keyword set (including "activity") and the claimed ordered
type list, but produces no exercise number; `exercise_number` (the first
numeric token) is computed only by `main.detect_exercise`, whose keyword
set omits "activity" and whose type chain is ordered differently.  The
scenario title "Exercise 3.2: Solve the equations" yields
`(true, problem_solving)` in both pipelines, with number "3.2" in
`main`'s. -/
theorem c7_amended :
    (∀ title, caDetectExercise title = specDetectExercise title) ∧
    mainDetectExercise "Exercise 3.2: Solve the equations" =
      (true, some "problem_solving",
       some { difficulty := "medium", estimatedMinutes := 15, hasSolution := false,
              exerciseNumber := some "3.2" }) ∧
    caDetectExercise "Exercise 3.2: Solve the equations" = (true, some "problem_solving") := by
  refine ⟨fun _ => rfl, by decide, by decide⟩

/-- C8: both box-type classifiers check their exercise keyword category
first, so any title containing one of the function's exercise keywords is
classified `exercise` — never `summary` — regardless of the level and of
any summary keyword also present. -/
theorem c8_exercise_beats_summary :
    ∀ (title : String) (level : Nat),
      (containsAnyKw ["exercise", "problem", "practice"] (pyLower title) = true →
        caClassifyType title level = "exercise" ∧ caClassifyType title level ≠ "summary") ∧
      (containsAnyKw ["exercise", "problem", "question"] (pyLower title) = true →
        mapBoxType level title = "exercise" ∧ mapBoxType level title ≠ "summary") := by
  intro title level
  constructor
  · intro h
    simp [caClassifyType, h]
  · intro h
    simp [mapBoxType, h]

/-- C8 (witness): the title "Exercise summary" carries both an exercise
and a summary keyword and is classified `exercise` by both classifiers. -/
theorem c8_witness :
    caClassifyType "Exercise summary" 1 = "exercise" ∧
    mapBoxType 1 "Exercise summary" = "exercise" :=
  ⟨((c8_exercise_beats_summary "Exercise summary" 1).1 (by decide)).1,
   ((c8_exercise_beats_summary "Exercise summary" 1).2 (by decide)).1⟩

/-- C4 (counterexample): for a single sampled page of 60 characters and no
images, `avg_chars_per_page` is **not** the arithmetic mean of the sampled
character counts: the page's 60 characters are discarded (count ≤ 100),
the code's average is 0 and the detector returns scanned/0.9, while the
claim's mean is 60, its first rule does not fire, and its rules return
text-based/0.8. -/
theorem c4_counterexample :
    (scanDetect [⟨String.mk (List.replicate 60 'a'), 0⟩]).isScanned = true ∧
    (scanDetect [⟨String.mk (List.replicate 60 'a'), 0⟩]).confidence = 9/10 ∧
    scanTextAvg [⟨String.mk (List.replicate 60 'a'), 0⟩] = 0 ∧
    specScanArithMean [⟨String.mk (List.replicate 60 'a'), 0⟩] = 60 ∧
    ¬ specScanArithMean [⟨String.mk (List.replicate 60 'a'), 0⟩] < 50 ∧
    specScanDecision [⟨String.mk (List.replicate 60 'a'), 0⟩] = (false, 8/10) := by
  refine ⟨?_, ?_, ?_, ?_, ?_, ?_⟩ <;>
    simp +decide [scanDetect, scanTextAvg, scanTextChars, scanSampleSize,
      specScanArithMean, specScanDecision, fitzCharCount, pyStrip, listStrip,
      List.replicate] <;> norm_num

/-- C4 (amended): the scan classifier samples the first
`min(10, total_pages)` pages and computes `avg_chars_per_page` as the sum
of the character counts of sampled pages whose count exceeds 100, divided
by the sample size (`scanTextChars`/`scanTextAvg`); whenever that average
is below 50, the first decision rule returns scanned with confidence 0.9.
A 10-page sample of 10-character pages has average 0 and yields
(is_scanned = true, confidence 0.9). -/
theorem c4_amended :
    (∀ pages : List FitzPage, scanTextAvg pages < 50 →
      (scanDetect pages).isScanned = true ∧ (scanDetect pages).confidence = 9/10) ∧
    scanTextAvg (List.replicate 10 ⟨"aaaaaaaaaa", 0⟩) = 0 ∧
    (scanDetect (List.replicate 10 ⟨"aaaaaaaaaa", 0⟩)).isScanned = true ∧
    (scanDetect (List.replicate 10 ⟨"aaaaaaaaaa", 0⟩)).confidence = 9/10 := by
  refine ⟨fun pages h => ?_, ?_, ?_, ?_⟩
  · constructor <;> simp [scanDetect, h]
  all_goals
    simp +decide [scanDetect, scanTextAvg, scanTextChars, scanSampleSize,
      fitzCharCount, pyStrip, listStrip, List.replicate]

/-- C4 (witness): the first-rule implication of `c4_amended` applied to
the concrete 10-page, 10-characters-per-page sample. -/
theorem c4_witness :
    (scanDetect (List.replicate 10 ⟨"aaaaaaaaaa", 0⟩)).isScanned = true ∧
    (scanDetect (List.replicate 10 ⟨"aaaaaaaaaa", 0⟩)).confidence = 9/10 :=
  c4_amended.1 (List.replicate 10 ⟨"aaaaaaaaaa", 0⟩)
    (by simp +decide [scanTextAvg, scanTextChars, scanSampleSize, fitzCharCount,
          pyStrip, listStrip, List.replicate])

/-! ### C9: invalid page ranges are dropped, processing continues -/

lemma splitChunksGo_eq_filter (totalPages : Int) (boxes : List RawBox) :
    splitChunksGo totalPages boxes =
      boxes.filter (fun b => rangeValidAfterClamp totalPages b.pageStart b.pageEnd) := by
  induction boxes with
  | nil => rfl
  | cons b rest ih =>
    have hstart : (if b.pageStart < 1 then 1 else b.pageStart) = max 1 b.pageStart := by
      rcases lt_or_le b.pageStart 1 with h | h
      · simp [h, max_eq_left h.le]
      · simp [not_lt.mpr h, max_eq_right h]
    have hend : (if b.pageEnd > totalPages then totalPages else b.pageEnd) =
        min totalPages b.pageEnd := by
      rcases lt_or_le totalPages b.pageEnd with h | h
      · simp [h, min_eq_left h.le]
      · simp [not_lt.mpr h, min_eq_right h]
    rw [splitChunksGo, hstart, hend]
    rcases le_or_lt (max 1 b.pageStart) (min totalPages b.pageEnd) with hv | hv
    · have hgt : ¬ max 1 b.pageStart > min totalPages b.pageEnd := not_lt.mpr hv
      have hmin : min (min totalPages b.pageEnd) totalPages = min totalPages b.pageEnd := by
        rcases le_total totalPages b.pageEnd with h | h <;> simp [min_eq_left, min_eq_right, h]
      have hmax : max (max 1 b.pageStart - 1) 0 = max 1 b.pageStart - 1 := by
        have : (1 : Int) ≤ max 1 b.pageStart := le_max_left _ _
        omega
      have hcopied : (min (min totalPages b.pageEnd) totalPages -
          max (max 1 b.pageStart - 1) 0).toNat ≠ 0 := by
        rw [hmin, hmax]
        omega
      simp only [hgt, if_false, hcopied, List.filter_cons]
      have : rangeValidAfterClamp totalPages b.pageStart b.pageEnd = true := by
        simp [rangeValidAfterClamp, hv]
      simp [this, ih]
    · have hgt : max 1 b.pageStart > min totalPages b.pageEnd := hv
      simp only [hgt, if_true, List.filter_cons]
      have : rangeValidAfterClamp totalPages b.pageStart b.pageEnd = false := by
        simp [rangeValidAfterClamp]
        omega
      simp [this, ih]

lemma createBlockMetadata_eq_filterMap (totalPages : Int) (aboxes : List ABox) :
    createBlockMetadata totalPages aboxes =
      (aboxes.filter (fun b => rangeValidAfterClamp totalPages b.startPage b.endPage)).map
        (mkBlockMeta totalPages) := by
  induction aboxes with
  | nil => rfl
  | cons b rest ih =>
    rw [createBlockMetadata]
    rcases le_or_lt (max 1 b.startPage) (min totalPages b.endPage) with hv | hv
    · have hgt : ¬ max 1 b.startPage > min totalPages b.endPage := not_lt.mpr hv
      have : rangeValidAfterClamp totalPages b.startPage b.endPage = true := by
        simp [rangeValidAfterClamp, hv]
      simp [hgt, this, ih, List.filter_cons]
    · have : rangeValidAfterClamp totalPages b.startPage b.endPage = false := by
        simp [rangeValidAfterClamp]
        omega
      simp [hv, this, ih, List.filter_cons]

lemma length_filter_not_eq_sub {α : Type} (p : α → Bool) (l : List α) :
    (l.filter (fun a => !p a)).length = l.length - (l.filter p).length := by
  induction l with
  | nil => rfl
  | cons a t ih =>
    have hle : (t.filter p).length ≤ t.length := t.length_filter_le p
    by_cases h : p a <;> simp [List.filter_cons, h, ih] <;> omega

/-- C9: a unit whose page range is invalid after clamping to
`[1, total_pages]` is dropped by both pipelines while the remaining units
are kept in order; the skipped count `main.split_pdf_into_chunks` reports
is exactly the number of such units; processing always returns normally
(both functions are total, so an invalid unit never fails the run). -/
theorem c9_invalid_units_dropped :
    ∀ (boxes : List RawBox) (aboxes : List ABox) (totalPages : Int),
      (splitPdfIntoChunks boxes totalPages).1 =
        boxes.filter (fun b => rangeValidAfterClamp totalPages b.pageStart b.pageEnd) ∧
      (splitPdfIntoChunks boxes totalPages).2 =
        (boxes.filter
          (fun b => !rangeValidAfterClamp totalPages b.pageStart b.pageEnd)).length ∧
      createBlockMetadata totalPages aboxes =
        (aboxes.filter (fun b => rangeValidAfterClamp totalPages b.startPage b.endPage)).map
          (mkBlockMeta totalPages) := by
  intro boxes aboxes totalPages
  refine ⟨splitChunksGo_eq_filter totalPages boxes, ?_, createBlockMetadata_eq_filterMap _ _⟩
  show boxes.length - (splitChunksGo totalPages boxes).length = _
  rw [splitChunksGo_eq_filter, length_filter_not_eq_sub]

/-! ### C6: fallback when the outline and the TOC text both fail -/

/-- The acceptance gate of `detect_from_builtin_toc`'s loop: the entry's
page is in `[1, total_pages]` and its cleaned title is non-empty. -/
def entryAccepted (total : Int) (e : TocEntry) : Bool :=
  if e.page > total ∨ e.page < 1 then false
  else if cleanTitle e.title = "" then false
  else true

/-- Number of outline entries the built-in-outline strategy accepts. -/
def acceptedCount (toc : Option (List TocEntry)) (total : Int) : Nat :=
  ((toc.getD []).filter (entryAccepted total)).length

/-- The table-of-contents markers `extract_toc_pages` searches the first
five pages for (the last-three-page check uses the first three of them). -/
def tocMarkers : List String :=
  ["table of contents", "contents", "index", "table des matières", "índice", "содержание"]

lemma buildTocGo_length (total : Int) :
    ∀ (items : List TocEntry) (count : Nat) (stack : List (Option String)),
      (buildTocGo total count stack items).length =
        (items.filter (entryAccepted total)).length := by
  intro items
  induction items with
  | nil => intro count stack; rfl
  | cons e rest ih =>
    intro count stack
    rw [List.filter_cons]
    by_cases hpg : e.page > total ∨ e.page < 1
    · have hacc : entryAccepted total e = false := by
        simp [entryAccepted, hpg]
      rw [buildTocGo, if_pos hpg, hacc, ih]
      simp
    · by_cases hct : cleanTitle e.title = ""
      · have hacc : entryAccepted total e = false := by
          simp [entryAccepted, hpg, hct]
        rw [buildTocGo, if_neg hpg, hacc]
        simp only [if_pos hct, Bool.false_eq_true, if_false, ih]
      · have hacc : entryAccepted total e = true := by
          simp [entryAccepted, hpg, hct]
        rw [buildTocGo, if_neg hpg, hacc]
        simp only [if_neg hct, if_true, List.length_cons, ih]

lemma fillEnds_length (total : Int) (l : List TocBox) :
    (fillEnds total l).length = l.length := by
  induction l with
  | nil => rfl
  | cons b rest ih => simp [fillEnds, ih]

lemma detectFromBuiltinToc_none_of_lt_two (toc : Option (List TocEntry)) (total : Int)
    (h : acceptedCount toc total < 2) : detectFromBuiltinToc toc total = none := by
  match toc with
  | none => rfl
  | some items =>
    rw [detectFromBuiltinToc]
    by_cases hlen : items.length = 0
    · simp [hlen]
    · have hlt : ¬ 2 ≤ (fillEnds total (buildTocGo total 0 [none] items)).length := by
        rw [fillEnds_length, buildTocGo_length]
        exact not_le.mpr h
      simp [hlen, hlt]

lemma extractTocPages_none (pages : List Page)
    (h : ∀ p ∈ pages, ∀ kw ∈ tocMarkers, containsSub (pyLower p.text) kw = false) :
    extractTocPages pages = none := by
  have hfirst : (pages.take 5).filter
      (fun p => containsAnyKw ["table of contents", "contents", "index",
        "table des matières", "índice", "содержание"] (pyLower p.text)) = [] := by
    rw [List.filter_eq_nil_iff]
    intro p hp
    have hp' : p ∈ pages := List.take_subset _ _ hp
    simp only [containsAnyKw, List.any_eq_true]
    rintro ⟨kw, hkw, hc⟩
    have := h p hp' kw (by simpa [tocMarkers] using hkw)
    simp [this] at hc
  have hlast : (pages.drop (pages.length - 3)).filter
      (fun p => containsAnyKw ["table of contents", "contents", "index"] (pyLower p.text)) = [] := by
    rw [List.filter_eq_nil_iff]
    intro p hp
    have hp' : p ∈ pages := List.drop_subset _ _ hp
    simp only [containsAnyKw, List.any_eq_true]
    rintro ⟨kw, hkw, hc⟩
    have hkw6 : kw ∈ tocMarkers := by
      simp only [tocMarkers]
      simp only [List.mem_cons, List.mem_singleton] at hkw ⊢
      tauto
    have := h p hp' kw hkw6
    simp [this] at hc
  rw [extractTocPages]
  simp only [hfirst, hlast]
  rfl

/-- C6: when the embedded outline yields fewer than two accepted units and
no page text contains a table-of-contents marker, detection returns
exactly the fixed-size fallback partition with the default chunk size 15;
in particular a 5-page document yields exactly one unit at level 1
covering pages 1–5. -/
theorem c6_fallback_partition :
    (∀ e : Extracted,
      acceptedCount e.builtinToc (e.numPages : Int) < 2 →
      (∀ p ∈ e.pages, ∀ kw ∈ tocMarkers, containsSub (pyLower p.text) kw = false) →
      chapterDetect e = createFallbackBoxes e.numPages 15) ∧
    createFallbackBoxes 5 15 =
      [⟨"box_1", "Section 1 (Pages 1-5)", 1, none, 1, 5⟩] := by
  constructor
  · intro e h1 h2
    rw [chapterDetect, detectFromBuiltinToc_none_of_lt_two _ _ h1, extractTocPages_none _ h2]
  · decide

/-- C6 (witness): a 5-page document with no outline and blank page texts
satisfies both hypotheses and detection returns the single fallback unit
with pages 1–5. -/
theorem c6_witness :
    chapterDetect
      { numPages := 5,
        pages := [⟨1, ""⟩, ⟨2, ""⟩, ⟨3, ""⟩, ⟨4, ""⟩, ⟨5, ""⟩],
        filename := "doc.pdf", builtinToc := none } =
      [⟨"box_1", "Section 1 (Pages 1-5)", 1, none, 1, 5⟩] := by
  rw [c6_fallback_partition.1 _ (by decide) (by decide)]
  exact c6_fallback_partition.2

/-! ### Box identifiers: `box_{n}` is injective in `n`

The hierarchy invariants compare `parent_id` strings with `box_id`
strings, so we need that distinct indices give distinct identifiers. -/

lemma toDigitsCore_acc (fuel : Nat) : ∀ (n : Nat) (acc : List Char),
    Nat.toDigitsCore 10 fuel n acc = Nat.toDigitsCore 10 fuel n [] ++ acc := by
  induction fuel with
  | zero => intro n acc; simp [Nat.toDigitsCore]
  | succ f ih =>
    intro n acc
    simp only [Nat.toDigitsCore]
    by_cases h : n / 10 = 0
    · simp [h]
    · simp only [h, if_false]
      rw [ih (n / 10) (Nat.digitChar (n % 10) :: acc), ih (n / 10) [Nat.digitChar (n % 10)]]
      simp

lemma toDigitsCore_fuel : ∀ (f1 f2 n : Nat), n < f1 → n < f2 →
    Nat.toDigitsCore 10 f1 n [] = Nat.toDigitsCore 10 f2 n [] := by
  intro f1
  induction f1 with
  | zero => intro f2 n h; omega
  | succ f ih =>
    intro f2 n h1 h2
    match f2, h2 with
    | f2 + 1, h2 =>
      simp only [Nat.toDigitsCore]
      by_cases h : n / 10 = 0
      · simp [h]
      · simp only [h, if_false]
        rw [toDigitsCore_acc f, toDigitsCore_acc f2]
        have hlt : n / 10 < f := by
          have h10 : n / 10 < n := Nat.div_lt_self (by omega) (by omega)
          omega
        have hlt2 : n / 10 < f2 := by
          have h10 : n / 10 < n := Nat.div_lt_self (by omega) (by omega)
          omega
        rw [ih f2 (n / 10) hlt hlt2]

lemma digitChar_val (d : Nat) (h : d < 10) : (Nat.digitChar d).toNat - '0'.toNat = d := by
  interval_cases d <;> decide

lemma digitsToNat_append_last (l : List Char) (c : Char) :
    digitsToNat (l ++ [c]) = 10 * digitsToNat l + (c.toNat - '0'.toNat) := by
  simp [digitsToNat, List.foldl_append]
  omega

lemma toDigits_val (n : Nat) : digitsToNat (Nat.toDigits 10 n) = n := by
  induction n using Nat.strong_induction_on with
  | _ n ih =>
    rw [Nat.toDigits]
    simp only [Nat.toDigitsCore]
    by_cases h : n / 10 = 0
    · simp only [h, if_true]
      have hn : n < 10 := by omega
      have hmod : n % 10 = n := Nat.mod_eq_of_lt hn
      rw [hmod]
      simpa [digitsToNat] using digitChar_val n hn
    · simp only [h, if_false]
      rw [toDigitsCore_acc]
      have hdiv : n / 10 < n := Nat.div_lt_self (by omega) (by omega)
      have hfuel : Nat.toDigitsCore 10 n (n / 10) [] =
          Nat.toDigitsCore 10 (n / 10 + 1) (n / 10) [] :=
        toDigitsCore_fuel n (n / 10 + 1) (n / 10) hdiv (by omega)
      rw [hfuel]
      have hrepr : Nat.toDigitsCore 10 (n / 10 + 1) (n / 10) [] = Nat.toDigits 10 (n / 10) := rfl
      rw [hrepr, digitsToNat_append_last, ih (n / 10) hdiv]
      have hmod : n % 10 < 10 := Nat.mod_lt _ (by omega)
      rw [digitChar_val _ hmod]
      omega

lemma natToString_inj : ∀ m n : Nat, toString m = toString n → m = n := by
  intro m n h
  have h' : Nat.toDigits 10 m = Nat.toDigits 10 n := by
    have hm : toString m = (Nat.toDigits 10 m).asString := rfl
    have hn : toString n = (Nat.toDigits 10 n).asString := rfl
    rw [hm, hn] at h
    have h2 := congrArg String.data h
    simpa [List.asString] using h2
  have hval := congrArg digitsToNat h'
  rwa [toDigits_val, toDigits_val] at hval

lemma boxId_inj (m n : Nat) (h : "box_" ++ toString m = "box_" ++ toString n) : m = n := by
  apply natToString_inj
  have h2 := congrArg String.data h
  simp only [String.data_append] at h2
  have h3 : (toString m).data = (toString n).data := List.append_cancel_left h2
  cases hm : toString m with
  | mk dm =>
    cases hn : toString n with
    | mk dn =>
      rw [hm, hn] at h3
      simp at h3
      rw [h3]

/-! ### Parent-stack lemmas -/

lemma stackStep_snd_eq (stack : List (Option String)) (level : Nat) (bid : String) :
    (stackStep stack level bid).2 =
      (stack.take level ++
        List.replicate (level + 1 - (stack.take level).length) none).set level (some bid) := by
  have h : (stack.take level).length ≤ level := by
    simp [List.length_take]
  simp [stackStep, h]

lemma stackStep_snd_length (stack : List (Option String)) (level : Nat) (bid : String) :
    ((stackStep stack level bid).2).length = level + 1 := by
  rw [stackStep_snd_eq]
  have h : (stack.take level).length ≤ level := by simp [List.length_take]
  simp [List.length_set, List.length_append, List.length_replicate]

lemma stackStep_snd_self (stack : List (Option String)) (level : Nat) (bid : String) :
    ((stackStep stack level bid).2)[level]? = some (some bid) := by
  rw [stackStep_snd_eq]
  have h : (stack.take level).length ≤ level := by simp [List.length_take]
  rw [List.getElem?_set]
  simp [List.length_append, List.length_replicate]

lemma stackStep_fst_def (stack : List (Option String)) (level : Nat) (bid : String) :
    (stackStep stack level bid).1 =
      if (stack.take level).length > 1 then (stack.take level).getLastD none else none := rfl

lemma stackStep_snd_other (stack : List (Option String)) (level : Nat) (bid : String)
    (k : Nat) (hk : k ≠ level) (id : String)
    (h : ((stackStep stack level bid).2)[k]? = some (some id)) :
    stack[k]? = some (some id) := by
  rw [stackStep_snd_eq, List.getElem?_set, if_neg (Ne.symm hk), List.getElem?_append] at h
  by_cases hlt : k < (stack.take level).length
  · rw [if_pos hlt, List.getElem?_take] at h
    have : k < level := lt_of_lt_of_le hlt (by simp [List.length_take])
    rwa [if_pos this] at h
  · rw [if_neg hlt, List.getElem?_replicate] at h
    by_cases h2 : k - (stack.take level).length < level + 1 - (stack.take level).length
    · rw [if_pos h2] at h
      exact absurd h (by simp)
    · rw [if_neg h2] at h
      exact absurd h (by simp)

lemma stackStep_fst_spec (stack : List (Option String)) (level : Nat) (bid : String)
    (pid : String) (h : (stackStep stack level bid).1 = some pid) :
    ∃ k, 1 ≤ k ∧ k + 1 ≤ level ∧ stack[k]? = some (some pid) := by
  rw [stackStep_fst_def] at h
  by_cases hlen : (stack.take level).length > 1
  · rw [if_pos hlen, List.getLastD_eq_getLast?, List.getLast?_eq_getElem?] at h
    have hs1len : (stack.take level).length ≤ level := by simp [List.length_take]
    have hk : (stack.take level)[(stack.take level).length - 1]? = some (some pid) := by
      cases hget : (stack.take level)[(stack.take level).length - 1]? with
      | none => rw [hget] at h; simp at h
      | some v =>
        rw [hget] at h
        simp at h
        exact congrArg some h
    refine ⟨(stack.take level).length - 1, by omega, by omega, ?_⟩
    rw [List.getElem?_take] at hk
    have hlt : (stack.take level).length - 1 < level := by omega
    rwa [if_pos hlt] at hk
  · rw [if_neg hlen] at h
    exact absurd h (by simp)

/-! ### Hierarchy invariants of the builders -/

/-- Every unit id stored at stack slot `k` belongs to an already-created
box whose level is exactly `k`. -/
def StackPointsTo (done : List TocBox) (stack : List (Option String)) : Prop :=
  ∀ (k : Nat) (id : String), stack[k]? = some (some id) →
    ∃ (j : Nat) (b : TocBox), done[j]? = some b ∧ b.boxId = id ∧ b.level = k

/-- Every parent reference points to a strictly earlier box of strictly
smaller level: references are never forward, dangling, or cyclic. -/
def ParentsOk (l : List TocBox) : Prop :=
  ∀ (i : Nat) (b : TocBox) (pid : String), l[i]? = some b → b.parentId = some pid →
    ∃ (j : Nat) (c : TocBox), j < i ∧ l[j]? = some c ∧ c.boxId = pid ∧ c.level < b.level

/-- Box `i` carries the id `box_{i+1}`. -/
def IdsPositional (l : List TocBox) : Prop :=
  ∀ (i : Nat) (b : TocBox), l[i]? = some b → b.boxId = "box_" ++ toString (i + 1)

lemma getElem?_append_left_of_some {α : Type} {l1 l2 : List α} {j : Nat} {b : α}
    (h : l1[j]? = some b) : (l1 ++ l2)[j]? = some b := by
  have hj : j < l1.length := (List.getElem?_eq_some_iff.mp h).1
  rw [List.getElem?_append, if_pos hj]
  exact h

lemma buildTocGo_inv (total : Int) :
    ∀ (items : List TocEntry) (done : List TocBox) (stack : List (Option String)),
      StackPointsTo done stack →
      ParentsOk done →
      IdsPositional done →
      ParentsOk (done ++ buildTocGo total done.length stack items) ∧
      IdsPositional (done ++ buildTocGo total done.length stack items) := by
  intro items
  induction items with
  | nil =>
    intro done stack _ hP hI
    simpa [buildTocGo] using ⟨hP, hI⟩
  | cons e rest ih =>
    intro done stack hS hP hI
    by_cases hpg : e.page > total ∨ e.page < 1
    · rw [buildTocGo, if_pos hpg]
      exact ih done stack hS hP hI
    · by_cases hct : cleanTitle e.title = ""
      · rw [buildTocGo, if_neg hpg]
        simp only [if_pos hct]
        exact ih done stack hS hP hI
      · rw [buildTocGo, if_neg hpg]
        simp only [if_neg hct, if_true]
        set bid := "box_" ++ toString (done.length + 1) with hbid
        set newbox : TocBox :=
          { boxId := bid, title := cleanTitle e.title, level := e.level,
            parentId := (stackStep stack e.level bid).1,
            startPage := e.page, endPage := 0 } with hnew
        have hgroup : done ++ newbox :: buildTocGo total (done.length + 1)
            (stackStep stack e.level bid).2 rest =
            (done ++ [newbox]) ++ buildTocGo total (done.length + 1)
              (stackStep stack e.level bid).2 rest := by
          simp
        have hlen1 : (done ++ [newbox]).length = done.length + 1 := by simp
        have hnewAt : (done ++ [newbox])[done.length]? = some newbox :=
          List.getElem?_concat_length done newbox
        have hS' : StackPointsTo (done ++ [newbox]) (stackStep stack e.level bid).2 := by
          intro k id hk
          by_cases hkl : k = e.level
          · subst hkl
            rw [stackStep_snd_self] at hk
            have hid : id = bid := by
              have := Option.some.inj (Option.some.inj hk)
              exact this.symm
            exact ⟨done.length, newbox, hnewAt, by rw [hid], rfl⟩
          · have hold := stackStep_snd_other stack e.level bid k hkl id hk
            obtain ⟨j, b, hj, hbid2, hlev⟩ := hS k id hold
            exact ⟨j, b, getElem?_append_left_of_some hj, hbid2, hlev⟩
        have hP' : ParentsOk (done ++ [newbox]) := by
          intro i b pid hi hpid
          have hi2 : i < done.length + 1 := by
            have := (List.getElem?_eq_some_iff.mp hi).1
            simpa using this
          by_cases hlt : i < done.length
          · rw [List.getElem?_append, if_pos hlt] at hi
            obtain ⟨j, c, hji, hjc, hcid, hclev⟩ := hP i b pid hi hpid
            exact ⟨j, c, hji, getElem?_append_left_of_some hjc, hcid, hclev⟩
          · have hieq : i = done.length := by omega
            subst hieq
            rw [hnewAt] at hi
            have hb : b = newbox := (Option.some.inj hi).symm
            subst hb
            have hpar : (stackStep stack e.level bid).1 = some pid := hpid
            obtain ⟨k, hk1, hk2, hkst⟩ := stackStep_fst_spec stack e.level bid pid hpar
            obtain ⟨j, c, hjc, hcid, hclev⟩ := hS k pid hkst
            have hjlt : j < done.length := (List.getElem?_eq_some_iff.mp hjc).1
            refine ⟨j, c, hjlt, getElem?_append_left_of_some hjc, hcid, ?_⟩
            show c.level < e.level
            omega
        have hI' : IdsPositional (done ++ [newbox]) := by
          intro i b hi
          have hi2 : i < done.length + 1 := by
            have := (List.getElem?_eq_some_iff.mp hi).1
            simpa using this
          by_cases hlt : i < done.length
          · rw [List.getElem?_append, if_pos hlt] at hi
            exact hI i b hi
          · have hieq : i = done.length := by omega
            subst hieq
            rw [hnewAt] at hi
            have hb : b = newbox := (Option.some.inj hi).symm
            subst hb
            rfl
        have := ih (done ++ [newbox]) (stackStep stack e.level bid).2 hS' hP' hI'
        rw [hlen1] at this
        rw [hgroup]
        exact this

lemma assignParentsGo_inv :
    ∀ (l done : List TocBox) (stack : List (Option String)),
      StackPointsTo done stack →
      ParentsOk done →
      ParentsOk (done ++ assignParentsGo stack l) := by
  intro l
  induction l with
  | nil =>
    intro done stack _ hP
    simpa [assignParentsGo] using hP
  | cons b rest ih =>
    intro done stack hS hP
    rw [assignParentsGo]
    set newb : TocBox := { b with parentId := (stackStep stack b.level b.boxId).1 } with hnewb
    have hgroup : done ++ newb :: assignParentsGo (stackStep stack b.level b.boxId).2 rest =
        (done ++ [newb]) ++ assignParentsGo (stackStep stack b.level b.boxId).2 rest := by
      simp
    have hnewAt : (done ++ [newb])[done.length]? = some newb :=
      List.getElem?_concat_length done newb
    have hS' : StackPointsTo (done ++ [newb]) (stackStep stack b.level b.boxId).2 := by
      intro k id hk
      by_cases hkl : k = b.level
      · subst hkl
        rw [stackStep_snd_self] at hk
        have hid : id = b.boxId := (Option.some.inj (Option.some.inj hk)).symm
        exact ⟨done.length, newb, hnewAt, by rw [hid], rfl⟩
      · have hold := stackStep_snd_other stack b.level b.boxId k hkl id hk
        obtain ⟨j, c, hj, hcid, hclev⟩ := hS k id hold
        exact ⟨j, c, getElem?_append_left_of_some hj, hcid, hclev⟩
    have hP' : ParentsOk (done ++ [newb]) := by
      intro i c pid hi hpid
      have hi2 : i < done.length + 1 := by
        have := (List.getElem?_eq_some_iff.mp hi).1
        simpa using this
      by_cases hlt : i < done.length
      · rw [List.getElem?_append, if_pos hlt] at hi
        obtain ⟨j, d, hji, hjd, hdid, hdlev⟩ := hP i c pid hi hpid
        exact ⟨j, d, hji, getElem?_append_left_of_some hjd, hdid, hdlev⟩
      · have hieq : i = done.length := by omega
        subst hieq
        rw [hnewAt] at hi
        have hc : c = newb := (Option.some.inj hi).symm
        subst hc
        have hpar : (stackStep stack b.level b.boxId).1 = some pid := hpid
        obtain ⟨k, hk1, hk2, hkst⟩ := stackStep_fst_spec stack b.level b.boxId pid hpar
        obtain ⟨j, d, hjd, hdid, hdlev⟩ := hS k pid hkst
        have hjlt : j < done.length := (List.getElem?_eq_some_iff.mp hjd).1
        refine ⟨j, d, hjlt, getElem?_append_left_of_some hjd, hdid, ?_⟩
        show d.level < b.level
        omega
    have := ih (done ++ [newb]) (stackStep stack b.level b.boxId).2 hS' hP'
    rw [hgroup]
    exact this

/-! ### End-page fill: index-wise description and transfers -/

lemma fillEnds_getElem? (total : Int) :
    ∀ (l : List TocBox) (i : Nat),
      (fillEnds total l)[i]? =
        (l[i]?).map (fun b => { b with endPage := endFor total b (l.drop (i + 1)) }) := by
  intro l
  induction l with
  | nil => intro i; simp [fillEnds]
  | cons b rest ih =>
    intro i
    cases i with
    | zero => simp [fillEnds]
    | succ n =>
      rw [fillEnds]
      simpa using ih n

lemma fillEnds_map_proj (total : Int) (l : List TocBox) :
    (fillEnds total l).map (fun b => (b.boxId, b.level, b.parentId, b.startPage)) =
      l.map (fun b => (b.boxId, b.level, b.parentId, b.startPage)) := by
  induction l with
  | nil => rfl
  | cons b rest ih => simp [fillEnds, ih]

lemma parentsOk_fillEnds (total : Int) (l : List TocBox) (h : ParentsOk l) :
    ParentsOk (fillEnds total l) := by
  intro i b pid hi hpid
  rw [fillEnds_getElem?] at hi
  cases hb : l[i]? with
  | none => rw [hb] at hi; simp at hi
  | some b0 =>
    rw [hb] at hi
    simp only [Option.map_some'] at hi
    have hb0 : b = { b0 with endPage := endFor total b0 (l.drop (i + 1)) } :=
      (Option.some.inj hi).symm
    have hpid0 : b0.parentId = some pid := by rw [hb0] at hpid; exact hpid
    obtain ⟨j, c, hji, hjc, hcid, hclev⟩ := h i b0 pid hb hpid0
    refine ⟨j, { c with endPage := endFor total c (l.drop (j + 1)) }, hji, ?_, hcid, ?_⟩
    · rw [fillEnds_getElem?, hjc]
      rfl
    · rw [hb0]
      exact hclev

lemma assignParentsGo_map_proj :
    ∀ (l : List TocBox) (stack : List (Option String)),
      (assignParentsGo stack l).map (fun b => (b.boxId, b.level, b.startPage, b.endPage)) =
        l.map (fun b => (b.boxId, b.level, b.startPage, b.endPage)) := by
  intro l
  induction l with
  | nil => intro stack; rfl
  | cons b rest ih =>
    intro stack
    rw [assignParentsGo]
    simp only [List.map_cons]
    rw [ih]

/-! ### Page bounds of accepted units -/

lemma buildTocGo_start_bounds (total : Int) :
    ∀ (items : List TocEntry) (count : Nat) (stack : List (Option String)),
      ∀ b ∈ buildTocGo total count stack items,
        1 ≤ b.startPage ∧ b.startPage ≤ total := by
  intro items
  induction items with
  | nil => intro count stack b hb; simp [buildTocGo] at hb
  | cons e rest ih =>
    intro count stack b hb
    rw [buildTocGo] at hb
    by_cases hpg : e.page > total ∨ e.page < 1
    · rw [if_pos hpg] at hb
      exact ih count stack b hb
    · rw [if_neg hpg] at hb
      by_cases hct : cleanTitle e.title = ""
      · simp only [if_pos hct] at hb
        exact ih count stack b hb
      · simp only [if_neg hct, if_true] at hb
        rcases List.mem_cons.mp hb with hb1 | hb2
        · subst hb1
          push_neg at hpg
          exact show (1 : Int) ≤ e.page ∧ e.page ≤ total from ⟨by omega, by omega⟩
        · exact ih _ _ b hb2

lemma parseTocLine_page_bounds (total : Int) (line : String) (t : String) (lv : Nat)
    (pg : Int) (h : parseTocLine total line = some (t, lv, pg)) :
    1 ≤ pg ∧ pg ≤ total := by
  rw [parseTocLine] at h
  by_cases h5 : (pyStrip line).data.length < 5
  · rw [if_pos h5] at h
    exact absurd h (by simp)
  · rw [if_neg h5] at h
    cases hm : (pageSuffixDots (pyStrip line).data).orElse
        (fun _ => pageSuffixWs (pyStrip line).data) with
    | none =>
      rw [hm] at h
      exact absurd h (by simp)
    | some dgs =>
      rw [hm] at h
      simp only at h
      by_cases hb : (digitsToNat dgs : Int) > total ∨ (digitsToNat dgs : Int) < 1
      · rw [if_pos hb] at h
        exact absurd h (by simp)
      · rw [if_neg hb] at h
        by_cases hc :
            cleanTitle ⟨subWsPage (subDotsPage (pyStrip line).data)⟩ = ""
        · rw [if_pos hc] at h
          exact absurd h (by simp)
        · rw [if_neg hc] at h
          have hpg : pg = (digitsToNat dgs : Int) := by
            have := Option.some.inj h
            exact (congrArg (fun x => x.2.2) this).symm
          push_neg at hb
          omega

lemma tocLinesGo_start_bounds (total : Int) :
    ∀ (lines : List String) (count : Nat),
      ∀ b ∈ tocLinesGo total count lines,
        1 ≤ b.startPage ∧ b.startPage ≤ total := by
  intro lines
  induction lines with
  | nil => intro count b hb; simp [tocLinesGo] at hb
  | cons line rest ih =>
    intro count b hb
    rw [tocLinesGo] at hb
    cases hm : parseTocLine total line with
    | none =>
      rw [hm] at hb
      exact ih count b hb
    | some v =>
      rw [hm] at hb
      rcases List.mem_cons.mp hb with hb1 | hb2
      · subst hb1
        exact parseTocLine_page_bounds total line v.1 v.2.1 v.2.2 (by rw [hm])
      · exact ih _ b hb2

lemma fillEnds_bounds (total : Int) :
    ∀ (l : List TocBox),
      (∀ b ∈ l, 1 ≤ b.startPage ∧ b.startPage ≤ total) →
      List.Pairwise (fun a b => a.startPage < b.startPage) l →
      ∀ b ∈ fillEnds total l,
        1 ≤ b.startPage ∧ b.startPage ≤ b.endPage ∧ b.endPage ≤ total := by
  intro l
  induction l with
  | nil => intro _ _ b hb; simp [fillEnds] at hb
  | cons a rest ih =>
    intro hbounds hpw b hb
    rw [fillEnds] at hb
    obtain ⟨hrel, htail⟩ := List.pairwise_cons.mp hpw
    rcases List.mem_cons.mp hb with hb1 | hb2
    · subst hb1
      have ha := hbounds a (List.mem_cons_self a rest)
      have hcase : a.startPage ≤ endFor total a rest ∧ endFor total a rest ≤ total := by
        unfold endFor
        split
        next b2 hf =>
          have hmem := List.mem_of_find?_eq_some hf
          have hb2 := hbounds b2 (List.mem_cons_of_mem a hmem)
          have hlt := hrel b2 hmem
          omega
        next hf =>
          omega
      exact ⟨ha.1, hcase.1, hcase.2⟩
    · exact ih (fun c hc => hbounds c (List.mem_cons_of_mem a hc)) htail b hb2

/-! ### Detector-level inversions and invariant transfer -/

lemma stackPointsTo_nil_init : StackPointsTo [] [none] := by
  intro k id hk
  cases k with
  | zero => simp at hk
  | succ n => simp at hk

lemma parentsOk_nil : ParentsOk [] := by
  intro i b pid hi
  simp at hi

lemma idsPositional_nil : IdsPositional [] := by
  intro i b hi
  simp at hi

lemma detectFromBuiltinToc_inv (toc : Option (List TocEntry)) (total : Int)
    (bs : List TocBox) (h : detectFromBuiltinToc toc total = some bs) :
    ∃ items, toc = some items ∧
      bs = fillEnds total (buildTocGo total 0 [none] items) := by
  cases toc with
  | none => simp [detectFromBuiltinToc] at h
  | some items =>
    rw [detectFromBuiltinToc] at h
    by_cases hlen : items.length = 0
    · rw [if_pos hlen] at h
      exact absurd h (by simp)
    · rw [if_neg hlen] at h
      by_cases h2 : 2 ≤ (fillEnds total (buildTocGo total 0 [none] items)).length
      · simp only [if_pos h2] at h
        exact ⟨items, rfl, (Option.some.inj h).symm⟩
      · simp only [if_neg h2] at h
        exact absurd h (by simp)

lemma detectFromTocText_inv (tocText : String) (total : Int)
    (bs : List TocBox) (h : detectFromTocText tocText total = some bs) :
    bs = fillEnds total (assignParents (tocLinesGo total 0
      ((splitOnNl tocText.data).map (fun l => (⟨l⟩ : String))))) := by
  rw [detectFromTocText] at h
  by_cases hne : tocText = ""
  · rw [if_pos hne] at h
    exact absurd h (by simp)
  · rw [if_neg hne] at h
    set built := tocLinesGo total 0 ((splitOnNl tocText.data).map (fun l => (⟨l⟩ : String)))
    by_cases h2 : 2 ≤ (fillEnds total (assignParents built)).length
    · simp only [if_pos h2] at h
      exact (Option.some.inj h).symm
    · simp only [if_neg h2] at h
      exact absurd h (by simp)

lemma detectFromBuiltinToc_parentsOk (toc : Option (List TocEntry)) (total : Int)
    (bs : List TocBox) (h : detectFromBuiltinToc toc total = some bs) : ParentsOk bs := by
  obtain ⟨items, _, hbs⟩ := detectFromBuiltinToc_inv toc total bs h
  have hinv := (buildTocGo_inv total items [] [none]
    stackPointsTo_nil_init parentsOk_nil idsPositional_nil).1
  simp only [List.nil_append, List.length_nil] at hinv
  rw [hbs]
  exact parentsOk_fillEnds total _ hinv

lemma detectFromTocText_parentsOk (tocText : String) (total : Int)
    (bs : List TocBox) (h : detectFromTocText tocText total = some bs) : ParentsOk bs := by
  have hbs := detectFromTocText_inv tocText total bs h
  have hinv := assignParentsGo_inv
    (tocLinesGo total 0 ((splitOnNl tocText.data).map (fun l => (⟨l⟩ : String))))
    [] [none] stackPointsTo_nil_init parentsOk_nil
  simp only [List.nil_append] at hinv
  rw [hbs]
  exact parentsOk_fillEnds total _ hinv

lemma fillEnds_map_start (total : Int) (l : List TocBox) :
    (fillEnds total l).map (fun b => b.startPage) = l.map (fun b => b.startPage) := by
  induction l with
  | nil => rfl
  | cons b rest ih => simp [fillEnds, ih]

lemma assignParentsGo_map_start :
    ∀ (l : List TocBox) (stack : List (Option String)),
      (assignParentsGo stack l).map (fun b => b.startPage) =
        l.map (fun b => b.startPage) := by
  intro l
  induction l with
  | nil => intro stack; rfl
  | cons b rest ih =>
    intro stack
    rw [assignParentsGo]
    simp only [List.map_cons]
    rw [ih]

lemma pairwise_start_transfer {l1 l2 : List TocBox}
    (hmap : l1.map (fun b => b.startPage) = l2.map (fun b => b.startPage))
    (h : l1.Pairwise (fun a b => a.startPage < b.startPage)) :
    l2.Pairwise (fun a b => a.startPage < b.startPage) := by
  have h1 : (l1.map (fun b => b.startPage)).Pairwise (· < ·) := List.pairwise_map.mpr h
  rw [hmap] at h1
  exact List.pairwise_map.mp h1

lemma mem_start_transfer {l1 l2 : List TocBox}
    (hmap : l1.map (fun b => b.startPage) = l2.map (fun b => b.startPage))
    {b : TocBox} (hb : b ∈ l1) : ∃ b0 ∈ l2, b0.startPage = b.startPage := by
  have hmem : b.startPage ∈ l2.map (fun b => b.startPage) := by
    rw [← hmap]
    exact List.mem_map_of_mem _ hb
  obtain ⟨b0, hb0, heq⟩ := List.mem_map.mp hmem
  exact ⟨b0, hb0, heq⟩

/-- C1 (counterexample): the outline `[(1,"Alpha",3), (1,"Beta",3)]` over a
10-page document is accepted (two units), yet the first produced unit has
`page_start = 3 > 2 = page_end`: the forward scan uses the next unit's
equal start page minus one, so `page_start ≤ page_end` fails. -/
theorem c1_counterexample :
    ((detectFromBuiltinToc (some [⟨1, "Alpha", 3⟩, ⟨1, "Beta", 3⟩]) 10).getD []).map
        (fun b => (b.startPage, b.endPage)) = [(3, 2), (3, 10)] ∧
    ¬ ((3 : Int) ≤ 2) := by
  decide

/-- C1 (amended): for the built-in-outline and TOC-text strategies, every
produced unit has `1 ≤ page_start ≤ total_pages` and a parent (when set)
that is an earlier unit of strictly smaller level, unconditionally; and
when the accepted units' start pages are strictly increasing in scan
order, `page_start ≤ page_end ≤ total_pages` also holds.  The fallback
partition satisfies `1 ≤ page_start ≤ page_end ≤ total_pages` with no
parents at level 1, unconditionally (for any chunk size ≥ 1). -/
theorem c1_amended :
    (∀ (toc : Option (List TocEntry)) (total : Int) (bs : List TocBox),
        detectFromBuiltinToc toc total = some bs →
        (∀ b ∈ bs, 1 ≤ b.startPage ∧ b.startPage ≤ total) ∧
        (bs.Pairwise (fun a b => a.startPage < b.startPage) →
          ∀ b ∈ bs, 1 ≤ b.startPage ∧ b.startPage ≤ b.endPage ∧ b.endPage ≤ total) ∧
        ParentsOk bs) ∧
    (∀ (tocText : String) (total : Int) (bs : List TocBox),
        detectFromTocText tocText total = some bs →
        (∀ b ∈ bs, 1 ≤ b.startPage ∧ b.startPage ≤ total) ∧
        (bs.Pairwise (fun a b => a.startPage < b.startPage) →
          ∀ b ∈ bs, 1 ≤ b.startPage ∧ b.startPage ≤ b.endPage ∧ b.endPage ≤ total) ∧
        ParentsOk bs) ∧
    (∀ (n pp : Nat), 1 ≤ pp → ∀ b ∈ createFallbackBoxes n pp,
        1 ≤ b.startPage ∧ b.startPage ≤ b.endPage ∧ b.endPage ≤ (n : Int) ∧
        b.parentId = none ∧ b.level = 1) := by
  refine ⟨?_, ?_, ?_⟩
  · intro toc total bs h
    obtain ⟨items, _, hbs⟩ := detectFromBuiltinToc_inv toc total bs h
    have hmap : bs.map (fun b => b.startPage) =
        (buildTocGo total 0 [none] items).map (fun b => b.startPage) := by
      rw [hbs]
      exact fillEnds_map_start total _
    have hbuilt := buildTocGo_start_bounds total items 0 [none]
    refine ⟨?_, ?_, detectFromBuiltinToc_parentsOk toc total bs h⟩
    · intro b hb
      obtain ⟨b0, hb0, heq⟩ := mem_start_transfer hmap hb
      rw [← heq]
      exact hbuilt b0 hb0
    · intro hpw b hb
      have hpw0 : (buildTocGo total 0 [none] items).Pairwise
          (fun a b => a.startPage < b.startPage) := pairwise_start_transfer hmap hpw
      rw [hbs] at hb
      exact fillEnds_bounds total _ hbuilt hpw0 b hb
  · intro tocText total bs h
    have hbs := detectFromTocText_inv tocText total bs h
    set built := tocLinesGo total 0 ((splitOnNl tocText.data).map (fun l => (⟨l⟩ : String)))
      with hbuiltdef
    have hmap2 : (assignParents built).map (fun b => b.startPage) =
        built.map (fun b => b.startPage) := assignParentsGo_map_start built [none]
    have hmap : bs.map (fun b => b.startPage) = built.map (fun b => b.startPage) := by
      rw [hbs, fillEnds_map_start]
      exact hmap2
    have hbuilt := tocLinesGo_start_bounds total
      ((splitOnNl tocText.data).map (fun l => (⟨l⟩ : String))) 0
    have hassigned : ∀ b ∈ assignParents built, 1 ≤ b.startPage ∧ b.startPage ≤ total := by
      intro b hb
      obtain ⟨b0, hb0, heq⟩ := mem_start_transfer hmap2 hb
      rw [← heq]
      exact hbuilt b0 hb0
    refine ⟨?_, ?_, detectFromTocText_parentsOk tocText total bs h⟩
    · intro b hb
      obtain ⟨b0, hb0, heq⟩ := mem_start_transfer hmap hb
      rw [← heq]
      exact hbuilt b0 hb0
    · intro hpw b hb
      have hpwassigned : (assignParents built).Pairwise
          (fun a b => a.startPage < b.startPage) := by
        apply pairwise_start_transfer _ hpw
        rw [hbs, fillEnds_map_start]
      rw [hbs] at hb
      exact fillEnds_bounds total _ hassigned hpwassigned b hb
  · intro n pp hpp b hb
    rw [createFallbackBoxes] at hb
    obtain ⟨k, hk, hbeq⟩ := List.mem_map.mp hb
    have hkr : k < (n + pp - 1) / pp := List.mem_range.mp hk
    have hkb : (k + 1) * pp ≤ n + pp - 1 :=
      (Nat.le_div_iff_mul_le (by omega)).mp (by omega)
    have hkn : k * pp + 1 ≤ n := by
      have hexp : (k + 1) * pp = k * pp + pp := by ring
      omega
    subst hbeq
    refine ⟨?_, ?_, ?_, rfl, rfl⟩
    · show (1 : Int) ≤ (k * pp + 1 : Nat)
      push_cast
      omega
    · show ((k * pp + 1 : Nat) : Int) ≤ ((min (k * pp + pp) n : Nat) : Int)
      push_cast
      omega
    · show ((min (k * pp + pp) n : Nat) : Int) ≤ (n : Int)
      push_cast
      omega

/-- C1 (witness): the amended theorem applied to the concrete outline
`[(1,"Intro",1), (2,"Basics",2), (1,"Advanced",6)]` over 10 pages (whose
accepted start pages 1, 2, 6 are strictly increasing) and to the 5-page
fallback partition. -/
theorem c1_witness :
    (1 ≤ (⟨"box_1", "Intro", 1, none, 1, 5⟩ : TocBox).startPage ∧
     (⟨"box_1", "Intro", 1, none, 1, 5⟩ : TocBox).startPage ≤
       (⟨"box_1", "Intro", 1, none, 1, 5⟩ : TocBox).endPage ∧
     (⟨"box_1", "Intro", 1, none, 1, 5⟩ : TocBox).endPage ≤ 10) ∧
    (1 ≤ (⟨"box_1", "Section 1 (Pages 1-5)", 1, none, 1, 5⟩ : TocBox).startPage ∧
     (⟨"box_1", "Section 1 (Pages 1-5)", 1, none, 1, 5⟩ : TocBox).startPage ≤
       (⟨"box_1", "Section 1 (Pages 1-5)", 1, none, 1, 5⟩ : TocBox).endPage ∧
     (⟨"box_1", "Section 1 (Pages 1-5)", 1, none, 1, 5⟩ : TocBox).endPage ≤ (5 : Nat)) := by
  constructor
  · exact ((c1_amended.1 (some [⟨1, "Intro", 1⟩, ⟨2, "Basics", 2⟩, ⟨1, "Advanced", 6⟩]) 10
      [⟨"box_1", "Intro", 1, none, 1, 5⟩,
       ⟨"box_2", "Basics", 2, some "box_1", 2, 5⟩,
       ⟨"box_3", "Advanced", 1, none, 6, 10⟩] (by decide)).2.1 (by decide))
      ⟨"box_1", "Intro", 1, none, 1, 5⟩ (by decide)
  · have := (c1_amended.2.2 5 15 (by decide))
      ⟨"box_1", "Section 1 (Pages 1-5)", 1, none, 1, 5⟩ (by decide)
    exact ⟨this.1, this.2.1, this.2.2.1⟩

/-! ### C10: the state of a build run, for the level-jump clause -/

/-- The `(len(boxes), parent_stack)` state of `detect_from_builtin_toc`'s
loop after consuming a prefix of the outline. -/
def buildTocState (total : Int) (count : Nat) (stack : List (Option String)) :
    List TocEntry → Nat × List (Option String)
  | [] => (count, stack)
  | e :: rest =>
    if e.page > total ∨ e.page < 1 then buildTocState total count stack rest
    else if cleanTitle e.title = "" then buildTocState total count stack rest
    else buildTocState total (count + 1)
      (stackStep stack e.level ("box_" ++ toString (count + 1))).2 rest

lemma buildTocGo_append (total : Int) :
    ∀ (pre post : List TocEntry) (count : Nat) (stack : List (Option String)),
      buildTocGo total count stack (pre ++ post) =
        buildTocGo total count stack pre ++
          buildTocGo total (buildTocState total count stack pre).1
            (buildTocState total count stack pre).2 post := by
  intro pre
  induction pre with
  | nil => intro post count stack; simp [buildTocGo, buildTocState]
  | cons e rest ih =>
    intro post count stack
    rw [List.cons_append, buildTocGo, buildTocGo, buildTocState]
    by_cases hpg : e.page > total ∨ e.page < 1
    · rw [if_pos hpg, if_pos hpg, if_pos hpg]
      exact ih post count stack
    · rw [if_neg hpg, if_neg hpg, if_neg hpg]
      by_cases hct : cleanTitle e.title = ""
      · simp only [if_pos hct]
        exact ih post count stack
      · simp only [if_neg hct, if_true]
        rw [List.cons_append]
        congr 1
        exact ih post (count + 1) _

/-- After a (partial) run, either no box was created and the state is the
initial one, or the stack's top slot holds the most recently created box,
at index equal to that box's level. -/
lemma buildTocState_top (total : Int) :
    ∀ (pre : List TocEntry) (count : Nat) (stack : List (Option String)),
      (buildTocGo total count stack pre = [] ∧
        buildTocState total count stack pre = (count, stack)) ∨
      (∃ lb, (buildTocGo total count stack pre).getLast? = some lb ∧
        (buildTocState total count stack pre).2.length = lb.level + 1 ∧
        (buildTocState total count stack pre).2.getLast? = some (some lb.boxId)) := by
  intro pre
  induction pre with
  | nil => intro count stack; left; exact ⟨rfl, rfl⟩
  | cons e rest ih =>
    intro count stack
    rw [buildTocGo, buildTocState]
    by_cases hpg : e.page > total ∨ e.page < 1
    · rw [if_pos hpg, if_pos hpg]
      exact ih count stack
    · rw [if_neg hpg, if_neg hpg]
      by_cases hct : cleanTitle e.title = ""
      · simp only [if_pos hct]
        exact ih count stack
      · simp only [if_neg hct, if_true]
        set bid := "box_" ++ toString (count + 1) with hbid
        set nb : TocBox :=
          { boxId := bid, title := cleanTitle e.title, level := e.level,
            parentId := (stackStep stack e.level bid).1,
            startPage := e.page, endPage := 0 } with hnb
        have hstk : (stackStep stack e.level bid).2.getLast? = some (some bid) := by
          rw [List.getLast?_eq_getElem?, stackStep_snd_length]
          simpa using stackStep_snd_self stack e.level bid
        rcases ih (count + 1) (stackStep stack e.level bid).2 with ⟨hnil, hst⟩ | ⟨lb, hl, h1, h2⟩
        · right
          refine ⟨nb, ?_, ?_, ?_⟩
          · rw [hnil]
            rfl
          · rw [hst]
            exact stackStep_snd_length stack e.level bid
          · rw [hst]
            exact hstk
        · right
          refine ⟨lb, ?_, h1, h2⟩
          have hne : buildTocGo total (count + 1) (stackStep stack e.level bid).2 rest ≠ [] := by
            intro hcon
            rw [hcon] at hl
            simp at hl
          cases hrest : buildTocGo total (count + 1) (stackStep stack e.level bid).2 rest with
          | nil => exact absurd hrest hne
          | cons x xs =>
            rw [hrest] at hl
            rw [List.getLast?_cons_cons]
            exact hl

/-- C10: (a) in both outline and TOC-text detection every unit with a
non-null `parent_id` points to a strictly earlier unit of strictly
smaller level — parent references are never forward, dangling, or cyclic
(`ParentsOk`); (b) when an accepted entry's level exceeds the current
parent-stack depth by more than one (`stack.length < level`, a level
jump), the new unit's parent is the most recently created unit, which
occupies the deepest occupied stack slot, at a strictly smaller level. -/
theorem c10_parent_references :
    (∀ (toc : Option (List TocEntry)) (total : Int) (bs : List TocBox),
        detectFromBuiltinToc toc total = some bs → ParentsOk bs) ∧
    (∀ (tocText : String) (total : Int) (bs : List TocBox),
        detectFromTocText tocText total = some bs → ParentsOk bs) ∧
    (∀ (total : Int) (pre : List TocEntry) (e : TocEntry) (rest : List TocEntry),
        (∀ i ∈ pre, 1 ≤ i.level) →
        entryAccepted total e = true →
        (buildTocState total 0 [none] pre).2.length < e.level →
        ∀ lb, (buildTocGo total 0 [none] pre).getLast? = some lb →
          1 ≤ lb.level →
          ∃ nb r, buildTocGo total 0 [none] (pre ++ e :: rest) =
              buildTocGo total 0 [none] pre ++ nb :: r ∧
            nb.parentId = some lb.boxId ∧
            nb.level = e.level ∧
            lb.level + 1 = (buildTocState total 0 [none] pre).2.length ∧
            lb.level < e.level ∧
            (∀ (k : Nat) (id : String),
              (buildTocState total 0 [none] pre).2[k]? = some (some id) → k ≤ lb.level)) := by
  refine ⟨detectFromBuiltinToc_parentsOk, detectFromTocText_parentsOk, ?_⟩
  intro total pre e rest _hlev hacc hjump lb hlast hlb1
  have hacc' : ¬ (e.page > total ∨ e.page < 1) ∧ ¬ cleanTitle e.title = "" := by
    by_cases h1 : e.page > total ∨ e.page < 1
    · simp [entryAccepted, h1] at hacc
    · by_cases h2 : cleanTitle e.title = ""
      · simp [entryAccepted, h1, h2] at hacc
      · exact ⟨h1, h2⟩
  set st := buildTocState total 0 [none] pre with hst
  rcases buildTocState_top total pre 0 [none] with ⟨hnil, _⟩ | ⟨lb', hl', hlen', htop'⟩
  · rw [hnil] at hlast
    simp at hlast
  · have hlb : lb' = lb := by
      rw [hl'] at hlast
      exact Option.some.inj hlast
    rw [hlb] at hlen' htop'
    rw [← hst] at hlen' htop'
    rw [buildTocGo_append total pre (e :: rest) 0 [none]]
    rw [buildTocGo, if_neg hacc'.1]
    simp only [if_neg hacc'.2, if_true]
    set bid := "box_" ++ toString (st.1 + 1) with hbid
    refine ⟨_, _, rfl, ?_, rfl, hlen'.symm, by omega, ?_⟩
    · show (stackStep st.2 e.level bid).1 = some lb.boxId
      rw [stackStep_fst_def]
      have htake : st.2.take e.level = st.2 :=
        List.take_of_length_le (by omega)
      rw [htake]
      have hlen2 : st.2.length > 1 := by omega
      rw [if_pos hlen2, List.getLastD_eq_getLast?, htop']
      rfl
    · intro k id hk
      have hklt : k < st.2.length := by
        by_contra hge
        rw [List.getElem?_eq_none (by omega)] at hk
        exact absurd hk (by simp)
      omega

/-- C10 (witness): the jump clause applied to the concrete run
`[(1,"A",1)]` followed by the accepted entry `(3,"B",2)` (level 3 against
a stack of length 2): the new unit's parent is `box_1`, the most recently
created unit. -/
theorem c10_witness :
    ((buildTocGo 10 0 [none] [⟨1, "A", 1⟩, ⟨3, "B", 2⟩])[1]?).map
      (fun b => b.parentId) = some (some "box_1") := by
  obtain ⟨nb, r, heq, hpar, _⟩ := c10_parent_references.2.2 10 [⟨1, "A", 1⟩] ⟨3, "B", 2⟩ []
    (by decide) (by decide) (by decide) ⟨"box_1", "A", 1, none, 1, 0⟩ (by decide) (by decide)
  simp only [List.cons_append, List.nil_append] at heq
  rw [heq]
  have hpre : buildTocGo 10 0 [none] [⟨1, "A", 1⟩] =
      [⟨"box_1", "A", 1, none, 1, 0⟩] := by decide
  rw [hpre]
  simp [hpar]

/-! ### C2: sibling contiguity machinery

The counterexample shows sibling contiguity fails when a level jump
punches a `None` hole into the parent stack.  The amended claim restricts
to *well-nested* unit sequences: the first accepted unit has level 1 and
each accepted unit's level is at most one deeper than its predecessor's
(no jumps), with all levels ≥ 1.  Under these hypotheses the stack is a
full path and the parent of a unit of level L is exactly the most recent
unit of level L−1. -/

/-- The accepted units' level sequence is well nested: the first unit has
level 1 and each unit goes at most one level deeper than its predecessor. -/
def WellNested (l : List TocBox) : Prop :=
  (∀ b : TocBox, l[0]? = some b → b.level = 1) ∧
  (∀ (i : Nat) (a b : TocBox), l[i]? = some a → l[i + 1]? = some b → b.level ≤ a.level + 1)

/-- Parent characterisation: a level-1 unit has no parent; a deeper unit's
parent is the most recent earlier unit one level up. -/
def ParentChar (l : List TocBox) : Prop :=
  ∀ (j : Nat) (b : TocBox), l[j]? = some b →
    (b.level = 1 → b.parentId = none) ∧
    (2 ≤ b.level → ∃ (m : Nat) (c : TocBox), m < j ∧ l[m]? = some c ∧
      c.level + 1 = b.level ∧ b.parentId = some c.boxId ∧
      (∀ (m' : Nat) (c' : TocBox), m < m' → m' < j → l[m']? = some c' →
        c'.level + 1 ≠ b.level))

/-- Under well-nesting the stack is the current path: slot 0 is the root
sentinel, the top slot is the last created unit, and slot `k ≥ 1` holds
the most recent unit of level `k`. -/
def PathStack (done : List TocBox) (stack : List (Option String)) : Prop :=
  stack[0]? = some none ∧
  (done = [] → stack = [none]) ∧
  (∀ lb : TocBox, done.getLast? = some lb → stack.length = lb.level + 1) ∧
  (∀ k : Nat, 1 ≤ k → k + 1 ≤ stack.length →
    ∃ (m : Nat) (c : TocBox), done[m]? = some c ∧ c.level = k ∧
      stack[k]? = some (some c.boxId) ∧
      (∀ (m' : Nat) (c' : TocBox), m < m' → done[m']? = some c' → c'.level ≠ k))

lemma wellNested_prefix {l1 l2 : List TocBox} (h : WellNested (l1 ++ l2)) :
    WellNested l1 := by
  constructor
  · intro b hb
    exact h.1 b (getElem?_append_left_of_some hb)
  · intro i a b ha hb
    exact h.2 i a b (getElem?_append_left_of_some ha) (getElem?_append_left_of_some hb)

/-- Discrete intermediate-value property of well-nested level sequences:
between a unit below `v` and a later unit at or above `v`, some unit hits
exactly `v`. -/
lemma levels_ivt (l : List TocBox) (hWN : WellNested l) :
    ∀ (d k : Nat) (v : Nat) (a b : TocBox), l[k]? = some a → l[k + d]? = some b →
      a.level < v → v ≤ b.level →
      ∃ (m : Nat) (c : TocBox), k < m ∧ m ≤ k + d ∧ l[m]? = some c ∧ c.level = v := by
  intro d
  induction d with
  | zero =>
    intro k v a b ha hb hav hvb
    rw [Nat.add_zero] at hb
    rw [ha] at hb
    have : a = b := Option.some.inj hb
    subst this
    omega
  | succ d ih =>
    intro k v a b ha hb hav hvb
    have hmid : ∃ c : TocBox, l[k + d]? = some c := by
      have hlen : k + d + 1 < l.length := (List.getElem?_eq_some_iff.mp hb).1
      have hlen2 : k + d < l.length := by omega
      exact ⟨l[k + d], List.getElem?_eq_getElem hlen2⟩
    obtain ⟨c, hc⟩ := hmid
    by_cases hcv : v ≤ c.level
    · obtain ⟨m, c', hm1, hm2, hm3, hm4⟩ := ih k v a c ha hc hav hcv
      exact ⟨m, c', hm1, by omega, hm3, hm4⟩
    · have hstep := hWN.2 (k + d) c b hc hb
      have hbv : b.level = v := by omega
      exact ⟨k + d + 1, b, by omega, by omega, hb, hbv⟩

/-- `find?` returns the element at the first index satisfying the
predicate. -/
lemma find?_eq_of_first {α : Type} {p : α → Bool} :
    ∀ (xs : List α) (j : Nat) (b : α), xs[j]? = some b → p b = true →
      (∀ (k : Nat) (c : α), k < j → xs[k]? = some c → p c = false) →
      xs.find? p = some b := by
  intro xs
  induction xs with
  | nil => intro j b hb; simp at hb
  | cons x rest ih =>
    intro j b hb hpb hmin
    cases j with
    | zero =>
      simp at hb
      subst hb
      simp [List.find?, hpb]
    | succ j' =>
      have hx : p x = false := hmin 0 x (by omega) (by simp)
      simp only [List.find?, hx]
      exact ih j' b (by simpa using hb) hpb
        (fun k c hk hc => hmin (k + 1) c (by omega) (by simpa using hc))

/-- If some element satisfies the predicate, `find?` succeeds and returns
an element at an index no later than any satisfying index. -/
lemma find?_le_of_mem {α : Type} {p : α → Bool} :
    ∀ (xs : List α) (j : Nat) (b : α), xs[j]? = some b → p b = true →
      ∃ (jj : Nat) (y : α), jj ≤ j ∧ xs[jj]? = some y ∧ xs.find? p = some y := by
  intro xs
  induction xs with
  | nil => intro j b hb; simp at hb
  | cons x rest ih =>
    intro j b hb hpb
    by_cases hx : p x = true
    · exact ⟨0, x, by omega, by simp, by simp [List.find?, hx]⟩
    · have hx' : p x = false := by
        cases hpx : p x
        · rfl
        · exact absurd hpx hx
      cases j with
      | zero =>
        simp at hb
        subst hb
        exact absurd hpb hx
      | succ j' =>
        obtain ⟨jj, y, hjj, hy, hfind⟩ := ih j' b (by simpa using hb) hpb
        exact ⟨jj + 1, y, by omega, by simpa using hy, by simp [List.find?, hx', hfind]⟩

lemma stackStep_fst_level_one (stack : List (Option String)) (bid : String) :
    (stackStep stack 1 bid).1 = none := by
  rw [stackStep_fst_def]
  apply if_neg
  have : (stack.take 1).length = min 1 stack.length := by simp [List.length_take]
  omega

lemma stackStep_fst_of_le (stack : List (Option String)) (level : Nat) (bid : String)
    (v : Option String) (h2 : 2 ≤ level) (hle : level ≤ stack.length)
    (hv : stack[level - 1]? = some v) :
    (stackStep stack level bid).1 = v := by
  rw [stackStep_fst_def]
  have hlen : (stack.take level).length = level := by
    simp [List.length_take]
    omega
  rw [if_pos (by omega), List.getLastD_eq_getLast?, List.getLast?_eq_getElem?, hlen,
    List.getElem?_take, if_pos (by omega : level - 1 < level), hv]
  rfl

lemma stackStep_snd_zero (stack : List (Option String)) (level : Nat) (bid : String)
    (h1 : 1 ≤ level) (h2 : 1 ≤ stack.length) :
    (stackStep stack level bid).2[0]? = stack[0]? := by
  rw [stackStep_snd_eq, List.getElem?_set, if_neg (by omega : ¬ level = 0),
    List.getElem?_append]
  have : 0 < (stack.take level).length := by
    simp [List.length_take]
    omega
  rw [if_pos this, List.getElem?_take, if_pos (by omega : 0 < level)]

lemma stackStep_snd_low (stack : List (Option String)) (level : Nat) (bid : String)
    (k : Nat) (hk1 : k < level) (hk2 : k < stack.length) :
    (stackStep stack level bid).2[k]? = stack[k]? := by
  rw [stackStep_snd_eq, List.getElem?_set, if_neg (by omega : ¬ level = k),
    List.getElem?_append]
  have : k < (stack.take level).length := by
    simp [List.length_take]
    omega
  rw [if_pos this, List.getElem?_take, if_pos hk1]

lemma buildTocGo_parentChar (total : Int) :
    ∀ (items : List TocEntry) (done : List TocBox) (stack : List (Option String)),
      PathStack done stack →
      ParentChar done →
      WellNested (done ++ buildTocGo total done.length stack items) →
      (∀ b ∈ done ++ buildTocGo total done.length stack items, 1 ≤ b.level) →
      ParentChar (done ++ buildTocGo total done.length stack items) := by
  intro items
  induction items with
  | nil =>
    intro done stack _ hPC _ _
    simpa [buildTocGo] using hPC
  | cons e rest ih =>
    intro done stack hPS hPC hWN hLev
    by_cases hpg : e.page > total ∨ e.page < 1
    · rw [buildTocGo, if_pos hpg] at hWN hLev ⊢
      exact ih done stack hPS hPC hWN hLev
    · by_cases hct : cleanTitle e.title = ""
      · rw [buildTocGo, if_neg hpg] at hWN hLev ⊢
        simp only [if_pos hct] at hWN hLev ⊢
        exact ih done stack hPS hPC hWN hLev
      · rw [buildTocGo, if_neg hpg] at hWN hLev ⊢
        simp only [if_neg hct, if_true] at hWN hLev ⊢
        set bid := "box_" ++ toString (done.length + 1) with hbid
        obtain ⟨nb, hnb⟩ : ∃ nb : TocBox, nb =
            { boxId := bid, title := cleanTitle e.title, level := e.level,
              parentId := (stackStep stack e.level bid).1,
              startPage := e.page, endPage := 0 } := ⟨_, rfl⟩
        rw [← hnb] at hWN hLev ⊢
        have hnbAt : (done ++ nb :: buildTocGo total (done.length + 1)
            (stackStep stack e.level bid).2 rest)[done.length]? = some nb := by
          rw [List.getElem?_append, if_neg (by omega)]
          simp
        have hnbLev : 1 ≤ e.level := by
          have hmem : nb ∈ done ++ nb :: buildTocGo total (done.length + 1)
              (stackStep stack e.level bid).2 rest :=
            List.mem_append.mpr (Or.inr (List.mem_cons_self _ _))
          have := hLev nb hmem
          rw [hnb] at this
          exact this
        have hstacklen : 1 ≤ stack.length := by
          have := (List.getElem?_eq_some_iff.mp hPS.1).1
          omega
        have hLle : e.level ≤ stack.length := by
          rcases List.eq_nil_or_concat done with hD | ⟨d', lb, hD⟩
          · have hl1 := hWN.1 nb (by rw [hD]; simpa [hD] using hnbAt)
            have hl1' : e.level = 1 := by
              rw [hnb] at hl1
              exact hl1
            rw [hPS.2.1 hD]
            simp [hl1']
          · have hlast : done.getLast? = some lb := by
              rw [hD, List.concat_eq_append]
              exact List.getLast?_concat d'
            have hslen := hPS.2.2.1 lb hlast
            have hdlen : 1 ≤ done.length := by
              rw [hD]
              simp
            have hlbAt : (done ++ nb :: buildTocGo total (done.length + 1)
                (stackStep stack e.level bid).2 rest)[done.length - 1]? = some lb := by
              rw [List.getElem?_append, if_pos (by omega)]
              rw [← List.getLast?_eq_getElem?]
              exact hlast
            have hadj := hWN.2 (done.length - 1) lb nb hlbAt
              (by rw [show done.length - 1 + 1 = done.length from by omega]; exact hnbAt)
            have hadj' : e.level ≤ lb.level + 1 := by
              rw [hnb] at hadj
              exact hadj
            omega
        have hstklen : (stackStep stack e.level bid).2.length = e.level + 1 :=
          stackStep_snd_length stack e.level bid
        have hPS' : PathStack (done ++ [nb]) (stackStep stack e.level bid).2 := by
          refine ⟨?_, ?_, ?_, ?_⟩
          · rw [stackStep_snd_zero stack e.level bid hnbLev hstacklen]
            exact hPS.1
          · intro habs
            exact absurd habs (by simp)
          · intro lb hlb
            rw [List.getLast?_concat] at hlb
            have hlbnb : lb = nb := (Option.some.inj hlb).symm
            subst hlbnb
            rw [hnb]
            exact hstklen
          · intro k hk1 hk2
            by_cases hkL : k = e.level
            · subst hkL
              refine ⟨done.length, nb, List.getElem?_concat_length done nb, by rw [hnb], ?_, ?_⟩
              · rw [stackStep_snd_self]
                rw [hnb]
              · intro m' c' hm' hc'
                have := (List.getElem?_eq_some_iff.mp hc').1
                simp at this
                omega
            · have hkL' : k < e.level := by omega
              have hkstack : k < stack.length := by omega
              obtain ⟨m, c, hmc, hclev, hstack_k, hnolater⟩ := hPS.2.2.2 k hk1 (by omega)
              refine ⟨m, c, getElem?_append_left_of_some hmc, hclev, ?_, ?_⟩
              · rw [stackStep_snd_low stack e.level bid k hkL' hkstack]
                exact hstack_k
              · intro m' c' hm' hc'
                by_cases hm'd : m' < done.length
                · rw [List.getElem?_append, if_pos hm'd] at hc'
                  exact hnolater m' c' hm' hc'
                · have hm'eq : m' = done.length := by
                    have := (List.getElem?_eq_some_iff.mp hc').1
                    simp at this
                    omega
                  subst hm'eq
                  rw [List.getElem?_concat_length] at hc'
                  have hc'nb : c' = nb := (Option.some.inj hc').symm
                  subst hc'nb
                  have hne : e.level ≠ k := by omega
                  rw [hnb]
                  exact hne
        have hPC' : ParentChar (done ++ [nb]) := by
          intro j b hj
          by_cases hjd : j < done.length
          · rw [List.getElem?_append, if_pos hjd] at hj
            obtain ⟨h1, h2⟩ := hPC j b hj
            refine ⟨h1, fun hL2 => ?_⟩
            obtain ⟨m, c, hm1, hm2, hm3, hm4, hm5⟩ := h2 hL2
            refine ⟨m, c, hm1, getElem?_append_left_of_some hm2, hm3, hm4, ?_⟩
            intro m' c' hmm' hm'j hc'
            have hm'd : m' < done.length := by omega
            rw [List.getElem?_append, if_pos hm'd] at hc'
            exact hm5 m' c' hmm' hm'j hc'
          · have hjeq : j = done.length := by
              have := (List.getElem?_eq_some_iff.mp hj).1
              simp at this
              omega
            subst hjeq
            rw [List.getElem?_concat_length] at hj
            have hbnb : b = nb := (Option.some.inj hj).symm
            subst hbnb
            constructor
            · intro hL1
              have hL1' : e.level = 1 := by
                rw [hnb] at hL1
                exact hL1
              have hgoal : (stackStep stack e.level bid).1 = none := by
                rw [hL1']
                exact stackStep_fst_level_one stack bid
              rw [hnb]
              exact hgoal
            · intro hL2
              have hL2' : 2 ≤ e.level := by
                rw [hnb] at hL2
                exact hL2
              obtain ⟨m, c, hmc, hclev, hstk_k, hnolater⟩ :=
                hPS.2.2.2 (e.level - 1) (by omega) (by omega)
              refine ⟨m, c, (List.getElem?_eq_some_iff.mp hmc).1,
                getElem?_append_left_of_some hmc, ?_, ?_, ?_⟩
              · have hcl : c.level + 1 = e.level := by omega
                rw [hnb]
                exact hcl
              · have hgoal : (stackStep stack e.level bid).1 = some c.boxId :=
                  stackStep_fst_of_le stack e.level bid (some c.boxId) hL2' hLle hstk_k
                rw [hnb]
                exact hgoal
              · intro m' c' hmm' hm'j hc'
                have hm'd : m' < done.length := hm'j
                rw [List.getElem?_append, if_pos hm'd] at hc'
                have hnl := hnolater m' c' hmm' hc'
                have hne : c'.level + 1 ≠ e.level := by omega
                rw [hnb]
                exact hne
        have hgroup : done ++ nb :: buildTocGo total (done.length + 1)
            (stackStep stack e.level bid).2 rest =
            (done ++ [nb]) ++ buildTocGo total (done.length + 1)
              (stackStep stack e.level bid).2 rest := by
          simp
        rw [hgroup] at hWN hLev ⊢
        have hlen1 : (done ++ [nb]).length = done.length + 1 := by simp
        have hres := ih (done ++ [nb]) (stackStep stack e.level bid).2 hPS' hPC'
          (by rw [hlen1]; exact hWN) (by rw [hlen1]; exact hLev)
        rw [hlen1] at hres
        exact hres

lemma mem_of_getElem?_some {α : Type} {l : List α} {i : Nat} {a : α}
    (h : l[i]? = some a) : a ∈ l := by
  obtain ⟨hi, he⟩ := List.getElem?_eq_some_iff.mp h
  rw [← he]
  exact List.getElem_mem hi

lemma level_one_iff_parent_none (l : List TocBox) (hPC : ParentChar l)
    (hLev : ∀ b ∈ l, 1 ≤ b.level) :
    ∀ (i : Nat) (a : TocBox), l[i]? = some a → (a.parentId = none ↔ a.level = 1) := by
  intro i a ha
  constructor
  · intro hnone
    by_contra hne
    have h2 : 2 ≤ a.level := by
      have := hLev a (mem_of_getElem?_some ha)
      omega
    obtain ⟨_, _, _, _, _, hsome, _⟩ := (hPC i a ha).2 h2
    rw [hnone] at hsome
    exact absurd hsome (by simp)
  · intro h1
    exact (hPC i a ha).1 h1

lemma same_parent_same_level (l : List TocBox) (hPC : ParentChar l)
    (hIds : IdsPositional l) (hLev : ∀ b ∈ l, 1 ≤ b.level) :
    ∀ (i j : Nat) (a b : TocBox), l[i]? = some a → l[j]? = some b →
      a.parentId = b.parentId → a.level = b.level := by
  intro i j a b ha hb hpar
  cases hpa : a.parentId with
  | none =>
    have hpb : b.parentId = none := by rw [← hpar, hpa]
    have h1a := (level_one_iff_parent_none l hPC hLev i a ha).mp hpa
    have h1b := (level_one_iff_parent_none l hPC hLev j b hb).mp hpb
    rw [h1a, h1b]
  | some pid =>
    have hpb : b.parentId = some pid := by rw [← hpar, hpa]
    have h2a : 2 ≤ a.level := by
      have hne : ¬ a.level = 1 := fun h1 => by
        have := (level_one_iff_parent_none l hPC hLev i a ha).mpr h1
        rw [hpa] at this
        exact absurd this (by simp)
      have := hLev a (mem_of_getElem?_some ha)
      omega
    have h2b : 2 ≤ b.level := by
      have hne : ¬ b.level = 1 := fun h1 => by
        have := (level_one_iff_parent_none l hPC hLev j b hb).mpr h1
        rw [hpb] at this
        exact absurd this (by simp)
      have := hLev b (mem_of_getElem?_some hb)
      omega
    obtain ⟨ma, ca, hmai, hca, hcal, hpaeq, _⟩ := (hPC i a ha).2 h2a
    obtain ⟨mb, cb, hmbj, hcb, hcbl, hpbeq, _⟩ := (hPC j b hb).2 h2b
    have hidca : ca.boxId = pid := by
      rw [hpa] at hpaeq
      exact (Option.some.inj hpaeq).symm
    have hidcb : cb.boxId = pid := by
      rw [hpb] at hpbeq
      exact (Option.some.inj hpbeq).symm
    have hia := hIds ma ca hca
    have hib := hIds mb cb hcb
    have hmeq : ma = mb := by
      have : "box_" ++ toString (ma + 1) = "box_" ++ toString (mb + 1) := by
        rw [← hia, ← hib, hidca, hidcb]
      have := boxId_inj (ma + 1) (mb + 1) this
      omega
    subst hmeq
    rw [hca] at hcb
    have : ca = cb := Option.some.inj hcb
    subst this
    omega

lemma siblings_block (l : List TocBox) (hPC : ParentChar l) (hIds : IdsPositional l)
    (hWN : WellNested l) (hLev : ∀ b ∈ l, 1 ≤ b.level) :
    ∀ (i j : Nat) (a b : TocBox), l[i]? = some a → l[j]? = some b → i < j →
      a.parentId = b.parentId →
      (∀ (k : Nat) (c : TocBox), i < k → k < j → l[k]? = some c →
        c.parentId ≠ a.parentId) →
      ∀ (k : Nat) (c : TocBox), i < k → k < j → l[k]? = some c → a.level < c.level := by
  intro i j a b ha hb hij hpar hnosib k c hik hkj hc
  by_contra hle
  push_neg at hle
  have hLab := same_parent_same_level l hPC hIds hLev i j a b ha hb hpar
  have hc1 := hLev c (mem_of_getElem?_some hc)
  cases hpa : a.parentId with
  | none =>
    have h1a := (level_one_iff_parent_none l hPC hLev i a ha).mp hpa
    have hc1' : c.level = 1 := by omega
    have := (level_one_iff_parent_none l hPC hLev k c hc).mpr hc1'
    exact hnosib k c hik hkj hc (by rw [this, hpa])
  | some pid =>
    have h2a : 2 ≤ a.level := by
      have hne : ¬ a.level = 1 := fun h1 => by
        have := (level_one_iff_parent_none l hPC hLev i a ha).mpr h1
        rw [hpa] at this
        exact absurd this (by simp)
      have := hLev a (mem_of_getElem?_some ha)
      omega
    have hpb : b.parentId = some pid := by rw [← hpar, hpa]
    obtain ⟨ma, ca, hmai, hca, hcal, hpaeq, hnoA⟩ := (hPC i a ha).2 h2a
    obtain ⟨mb, cb, hmbj, hcb, hcbl, hpbeq, hnoB⟩ := (hPC j b hb).2 (by omega)
    have hmeq : ma = mb := by
      have hidca : ca.boxId = pid := by
        rw [hpa] at hpaeq
        exact (Option.some.inj hpaeq).symm
      have hidcb : cb.boxId = pid := by
        rw [hpb] at hpbeq
        exact (Option.some.inj hpbeq).symm
      have hia := hIds ma ca hca
      have hib := hIds mb cb hcb
      have heq : "box_" ++ toString (ma + 1) = "box_" ++ toString (mb + 1) := by
        rw [← hia, ← hib, hidca, hidcb]
      have := boxId_inj (ma + 1) (mb + 1) heq
      omega
    subst hmeq
    have hcacb : ca = cb := by
      rw [hca] at hcb
      exact Option.some.inj hcb
    subst hcacb
    by_cases hcL : c.level = a.level
    · have h2c : 2 ≤ c.level := by omega
      obtain ⟨mc, cc, hmck, hcc, hccl, hpceq, hnoC⟩ := (hPC k c hc).2 h2c
      have hmc_le : mc ≤ ma := by
        by_contra hgt
        push_neg at hgt
        have := hnoB mc cc hgt (by omega) hcc
        omega
      have hmc_eq : mc = ma := by
        by_contra hne
        have hlt : mc < ma := by omega
        have := hnoC ma ca hlt (by omega) hca
        omega
      subst hmc_eq
      have hcc_ca : cc = ca := by
        rw [hca] at hcc
        exact (Option.some.inj hcc).symm
      subst hcc_ca
      refine hnosib k c hik hkj hc ?_
      rw [hpceq, hpa, ← hpaeq, hpa]
    · have hclt : c.level < a.level := by omega
      by_cases hc1l : c.level + 1 = a.level
      · have := hnoB k c (by omega) (by omega) hc
        omega
      · have hivt := levels_ivt l hWN (j - k) k (a.level - 1) c b hc
          (by rw [show k + (j - k) = j from by omega]; exact hb)
          (by omega) (by omega)
        obtain ⟨m'', c'', hm1, hm2, hm3, hm4⟩ := hivt
        have hm2' : m'' < j := by
          by_contra hgej
          push_neg at hgej
          have : m'' = j := by omega
          subst this
          rw [hb] at hm3
          have : c'' = b := (Option.some.inj hm3).symm
          subst this
          omega
        have := hnoB m'' c'' (by omega) hm2' hm3
        omega

lemma pathStack_init : PathStack [] [none] := by
  refine ⟨by simp, fun _ => rfl, ?_, ?_⟩
  · intro lb hlb
    simp at hlb
  · intro k hk1 hk2
    simp at hk2
    omega

lemma parentChar_nil : ParentChar [] := by
  intro j b hj
  simp at hj

lemma wellNested_fillEnds_inv (total : Int) (l : List TocBox)
    (h : WellNested (fillEnds total l)) : WellNested l := by
  constructor
  · intro b hb
    have := h.1 { b with endPage := endFor total b (l.drop 1) } (by
      rw [fillEnds_getElem?, hb]
      rfl)
    exact this
  · intro i a b ha hb
    have := h.2 i { a with endPage := endFor total a (l.drop (i + 1)) }
      { b with endPage := endFor total b (l.drop (i + 2)) }
      (by rw [fillEnds_getElem?, ha]; rfl)
      (by rw [fillEnds_getElem?, hb]; rfl)
    exact this

lemma levels_fillEnds_inv (total : Int) (l : List TocBox)
    (h : ∀ b ∈ fillEnds total l, 1 ≤ b.level) : ∀ b ∈ l, 1 ≤ b.level := by
  intro b hb
  obtain ⟨i, hi⟩ := List.getElem?_of_mem hb
  have hmem : { b with endPage := endFor total b (l.drop (i + 1)) } ∈ fillEnds total l := by
    apply mem_of_getElem?_some (i := i)
    rw [fillEnds_getElem?, hi]
    rfl
  have := h _ hmem
  exact this

lemma mono_get {l : List TocBox}
    (h : l.Pairwise (fun a b => a.startPage < b.startPage)) :
    ∀ (m n : Nat) (x y : TocBox), l[m]? = some x → l[n]? = some y → m < n →
      x.startPage < y.startPage := by
  intro m n x y hx hy hmn
  obtain ⟨hm, hxe⟩ := List.getElem?_eq_some_iff.mp hx
  obtain ⟨hn, hye⟩ := List.getElem?_eq_some_iff.mp hy
  have := List.pairwise_iff_getElem.mp h m n hm hn hmn
  rw [hxe, hye] at this
  exact this

/-- C2 (counterexample): outline `[(1,"A",1), (3,"B",2), (3,"C",3)]` over
10 pages — the jump from level 1 to level 3 leaves a `None` hole at stack
slot 2, so "C" becomes a root unit; the two root siblings "A" (pages
1–10) and "C" (pages 3–10) are neither contiguous (10 + 1 ≠ 3) nor
non-overlapping. -/
theorem c2_counterexample :
    ((detectFromBuiltinToc (some [⟨1, "A", 1⟩, ⟨3, "B", 2⟩, ⟨3, "C", 3⟩]) 10).getD []).map
        (fun b => (b.parentId, b.startPage, b.endPage)) =
      [(none, 1, 10), (some "box_1", 2, 2), (none, 3, 10)] ∧
    ¬ ((10 : Int) + 1 = 3) ∧
    ¬ ((10 : Int) < 3) := by
  decide

/-- C2 (amended): for the built-in-outline strategy, provided the produced
units are well nested (first unit at level 1, each unit at most one level
deeper than its predecessor — i.e. no level jumps), all levels are ≥ 1,
and start pages strictly increase in scan order, consecutive same-parent
siblings are contiguous (`page_end + 1 = next sibling's page_start`) and
any two same-parent siblings have non-overlapping, ordered ranges
(`earlier.page_end < later.page_start`).  The fallback partition is
unconditionally contiguous (all units are parentless roots). -/
theorem c2_amended :
    (∀ (toc : Option (List TocEntry)) (total : Int) (bs : List TocBox),
        detectFromBuiltinToc toc total = some bs →
        WellNested bs →
        (∀ b ∈ bs, 1 ≤ b.level) →
        bs.Pairwise (fun a b => a.startPage < b.startPage) →
        (∀ (i j : Nat) (a b : TocBox), bs[i]? = some a → bs[j]? = some b → i < j →
          a.parentId = b.parentId →
          (∀ (k : Nat) (c : TocBox), i < k → k < j → bs[k]? = some c →
            c.parentId ≠ a.parentId) →
          a.endPage + 1 = b.startPage) ∧
        (∀ (i j : Nat) (a b : TocBox), bs[i]? = some a → bs[j]? = some b → i < j →
          a.parentId = b.parentId → a.endPage < b.startPage)) ∧
    (∀ (n pp : Nat), 1 ≤ pp →
      ∀ (i : Nat) (a b : TocBox), (createFallbackBoxes n pp)[i]? = some a →
        (createFallbackBoxes n pp)[i + 1]? = some b →
        a.endPage + 1 = b.startPage) := by
  constructor
  · intro toc total bs hdet hWNbs hLevbs hMonobs
    obtain ⟨items, _, hbs⟩ := detectFromBuiltinToc_inv toc total bs hdet
    rw [hbs] at hWNbs hLevbs hMonobs
    have hWN : WellNested (buildTocGo total 0 [none] items) :=
      wellNested_fillEnds_inv total _ hWNbs
    have hLev : ∀ b ∈ buildTocGo total 0 [none] items, 1 ≤ b.level :=
      levels_fillEnds_inv total _ hLevbs
    have hMono : (buildTocGo total 0 [none] items).Pairwise
        (fun a b => a.startPage < b.startPage) :=
      pairwise_start_transfer (fillEnds_map_start total _) hMonobs
    have hPC : ParentChar (buildTocGo total 0 [none] items) := by
      have := buildTocGo_parentChar total items [] [none] pathStack_init parentChar_nil
        (by simpa using hWN) (by simpa using hLev)
      simpa using this
    have hIds : IdsPositional (buildTocGo total 0 [none] items) := by
      have := (buildTocGo_inv total items [] [none]
        stackPointsTo_nil_init parentsOk_nil idsPositional_nil).2
      simpa using this
    have hidx : ∀ (i : Nat) (a : TocBox), bs[i]? = some a →
        ∃ a0 : TocBox, (buildTocGo total 0 [none] items)[i]? = some a0 ∧
          a = { a0 with endPage := endFor total a0 ((buildTocGo total 0 [none] items).drop (i + 1)) } := by
      intro i a ha
      rw [hbs, fillEnds_getElem?] at ha
      cases h0 : (buildTocGo total 0 [none] items)[i]? with
      | none => rw [h0] at ha; simp at ha
      | some a0 =>
        rw [h0] at ha
        simp only [Option.map_some'] at ha
        exact ⟨a0, rfl, (Option.some.inj ha).symm⟩
    constructor
    · intro i j a b hai hbj hij hpar hnosib
      obtain ⟨a0, ha0, haeq⟩ := hidx i a hai
      obtain ⟨b0, hb0, hbeq⟩ := hidx j b hbj
      have hpar0 : a0.parentId = b0.parentId := by
        have h1 : a.parentId = a0.parentId := by rw [haeq]
        have h2 : b.parentId = b0.parentId := by rw [hbeq]
        rw [← h1, ← h2, hpar]
      have hnosib0 : ∀ (k : Nat) (c : TocBox), i < k → k < j →
          (buildTocGo total 0 [none] items)[k]? = some c →
          c.parentId ≠ a0.parentId := by
        intro k c hik hkj hkc hceq
        refine hnosib k { c with endPage := endFor total c ((buildTocGo total 0 [none] items).drop (k + 1)) }
          hik hkj ?_ ?_
        · rw [hbs, fillEnds_getElem?, hkc]
          rfl
        · show c.parentId = a.parentId
          rw [hceq, haeq]
      have hblock := siblings_block _ hPC hIds hWN hLev i j a0 b0 ha0 hb0 hij hpar0 hnosib0
      have hLL := same_parent_same_level _ hPC hIds hLev i j a0 b0 ha0 hb0 hpar0
      have hfind : ((buildTocGo total 0 [none] items).drop (i + 1)).find?
          (fun b2 => b2.level ≤ a0.level) = some b0 := by
        apply find?_eq_of_first _ (j - i - 1)
        · rw [List.getElem?_drop, show i + 1 + (j - i - 1) = j from by omega]
          exact hb0
        · simp [hLL]
        · intro k' c hk' hc
          rw [List.getElem?_drop] at hc
          have := hblock (i + 1 + k') c (by omega) (by omega) hc
          simp
          omega
      have hend : a.endPage = b0.startPage - 1 := by
        rw [haeq]
        show endFor total a0 _ = b0.startPage - 1
        rw [endFor, hfind]
      have hstart : b.startPage = b0.startPage := by rw [hbeq]
      rw [hend, hstart]
      omega
    · intro i j a b hai hbj hij hpar
      obtain ⟨a0, ha0, haeq⟩ := hidx i a hai
      obtain ⟨b0, hb0, hbeq⟩ := hidx j b hbj
      have hpar0 : a0.parentId = b0.parentId := by
        have h1 : a.parentId = a0.parentId := by rw [haeq]
        have h2 : b.parentId = b0.parentId := by rw [hbeq]
        rw [← h1, ← h2, hpar]
      have hLL := same_parent_same_level _ hPC hIds hLev i j a0 b0 ha0 hb0 hpar0
      obtain ⟨jj, y, hjj, hy, hfind⟩ := find?_le_of_mem
        (p := fun b2 => decide (b2.level ≤ a0.level))
        ((buildTocGo total 0 [none] items).drop (i + 1)) (j - i - 1) b0
        (by rw [List.getElem?_drop, show i + 1 + (j - i - 1) = j from by omega]; exact hb0)
        (by simp [hLL])
      have hend : a.endPage = y.startPage - 1 := by
        rw [haeq]
        show endFor total a0 _ = y.startPage - 1
        rw [endFor, hfind]
      rw [List.getElem?_drop] at hy
      have hylt : y.startPage ≤ b0.startPage := by
        by_cases hyj : i + 1 + jj = j
        · rw [hyj, hb0] at hy
          rw [(Option.some.inj hy).symm]
        · have := mono_get hMono (i + 1 + jj) j y b0 hy hb0 (by omega)
          omega
      have hstart : b.startPage = b0.startPage := by rw [hbeq]
      rw [hend, hstart]
      omega
  · intro n pp hpp i a b ha hb
    rw [createFallbackBoxes] at ha hb
    have hb' := hb
    rw [List.getElem?_map] at ha hb
    have hi1 : i + 1 < (n + pp - 1) / pp := by
      by_contra hge
      push_neg at hge
      rw [List.getElem?_eq_none (by simpa using hge)] at hb
      simp at hb
    have hi : i < (n + pp - 1) / pp := by omega
    rw [List.getElem?_range hi] at ha
    rw [List.getElem?_range hi1] at hb
    simp only [Option.map_some'] at ha hb
    have haeq := (Option.some.inj ha).symm
    have hbeq := (Option.some.inj hb).symm
    have hmul : (i + 2) * pp ≤ n + pp - 1 :=
      (Nat.le_div_iff_mul_le (by omega)).mp (by omega)
    have hexp1 : (i + 2) * pp = i * pp + 2 * pp := by ring
    have hip : (i + 1) * pp = i * pp + pp := by ring
    have hle : i * pp + pp ≤ n := by omega
    have hmin : min (i * pp + pp) n = i * pp + pp := by omega
    rw [haeq, hbeq]
    show ((min (i * pp + pp) n : Nat) : Int) + 1 = (((i + 1) * pp + 1 : Nat) : Int)
    rw [hmin, hip]
    push_cast
    ring

lemma wellNested_of_three (a b c : TocBox) (h1 : a.level = 1)
    (h2 : b.level ≤ a.level + 1) (h3 : c.level ≤ b.level + 1) :
    WellNested [a, b, c] := by
  constructor
  · intro x hx
    simp only [List.getElem?_cons_zero, Option.some.injEq] at hx
    rw [← hx]
    exact h1
  · intro i x y hx hy
    match i with
    | 0 =>
      simp only [List.getElem?_cons_zero, List.getElem?_cons_succ,
        Option.some.injEq] at hx hy
      rw [← hx, ← hy]
      exact h2
    | 1 =>
      simp only [List.getElem?_cons_zero, List.getElem?_cons_succ,
        Option.some.injEq] at hx hy
      rw [← hx, ← hy]
      exact h3
    | n + 2 =>
      simp only [List.getElem?_cons_succ, List.getElem?_nil] at hy
      exact absurd hy (by simp)

/-- C2 witness: the amended theorem applied to the concrete well-nested
outline `[(1,"Intro",1), (2,"Basics",2), (1,"Advanced",6)]` over 10 pages
(root siblings "Intro" and "Advanced" are contiguous and non-overlapping)
and to the fallback partition of 20 pages into chunks of 15. -/
theorem c2_witness :
    (detectFromBuiltinToc (some [⟨1, "Intro", 1⟩, ⟨2, "Basics", 2⟩, ⟨1, "Advanced", 6⟩]) 10 =
      some [⟨"box_1", "Intro", 1, none, 1, 5⟩, ⟨"box_2", "Basics", 2, some "box_1", 2, 5⟩,
        ⟨"box_3", "Advanced", 1, none, 6, 10⟩]) ∧
    ((⟨"box_1", "Intro", 1, none, 1, 5⟩ : TocBox).endPage + 1 =
      (⟨"box_3", "Advanced", 1, none, 6, 10⟩ : TocBox).startPage) ∧
    ((⟨"box_1", "Intro", 1, none, 1, 5⟩ : TocBox).endPage <
      (⟨"box_3", "Advanced", 1, none, 6, 10⟩ : TocBox).startPage) ∧
    (∀ (a b : TocBox), (createFallbackBoxes 20 15)[0]? = some a →
      (createFallbackBoxes 20 15)[0 + 1]? = some b → a.endPage + 1 = b.startPage) := by
  have hdet : detectFromBuiltinToc (some [⟨1, "Intro", 1⟩, ⟨2, "Basics", 2⟩, ⟨1, "Advanced", 6⟩]) 10 =
      some [⟨"box_1", "Intro", 1, none, 1, 5⟩, ⟨"box_2", "Basics", 2, some "box_1", 2, 5⟩,
        ⟨"box_3", "Advanced", 1, none, 6, 10⟩] := by decide
  have hWN : WellNested [(⟨"box_1", "Intro", 1, none, 1, 5⟩ : TocBox),
      ⟨"box_2", "Basics", 2, some "box_1", 2, 5⟩, ⟨"box_3", "Advanced", 1, none, 6, 10⟩] :=
    wellNested_of_three _ _ _ (by decide) (by decide) (by decide)
  have hmain := c2_amended
  have hpair := (hmain.1 (some [⟨1, "Intro", 1⟩, ⟨2, "Basics", 2⟩, ⟨1, "Advanced", 6⟩]) 10
    [⟨"box_1", "Intro", 1, none, 1, 5⟩, ⟨"box_2", "Basics", 2, some "box_1", 2, 5⟩,
      ⟨"box_3", "Advanced", 1, none, 6, 10⟩] hdet hWN (by decide) (by decide))
  have hnosib : ∀ (k : Nat) (c : TocBox), 0 < k → k < 2 →
      [(⟨"box_1", "Intro", 1, none, 1, 5⟩ : TocBox),
        ⟨"box_2", "Basics", 2, some "box_1", 2, 5⟩,
        ⟨"box_3", "Advanced", 1, none, 6, 10⟩][k]? = some c →
      c.parentId ≠ (⟨"box_1", "Intro", 1, none, 1, 5⟩ : TocBox).parentId := by
    intro k c hk1 hk2 hkc
    have hk : k = 1 := by omega
    subst hk
    simp only [List.getElem?_cons_zero, List.getElem?_cons_succ,
      Option.some.injEq] at hkc
    rw [← hkc]
    decide
  refine ⟨hdet, ?_, ?_, ?_⟩
  · exact hpair.1 0 2 _ _ (by decide) (by decide) (by decide) (by decide) hnosib
  · exact hpair.2 0 2 _ _ (by decide) (by decide) (by decide) (by decide)
  · intro a b ha hb
    exact hmain.2 20 15 (by decide) 0 a b ha hb
